import Mathlib

/-!
# gitversion: parsing `git describe` output and formatting a version string

A shallow embedding of `main.go`.  The program reads two strings from git (the
latest tag and the long, dirty-aware describe string), accumulates the parsed
fields in package-level variables and prints one version string.

Modelling conventions:

* a Go `string` is a sequence of bytes; it is modelled as `List Char`, one
  element per byte (`len` is `List.length`, `s[i:]` is `List.drop i`);
* a Go `int` is a 64-bit two's-complement integer, modelled as an `Int` together
  with an explicit wrap-around (`wrapInt`) where the program does arithmetic;
* `os.Exit(n)` and run-time panics are modelled as the error side of `Except`;
* the package-level variables start at their zero values and are threaded
  explicitly through the stages of `main`.
-/

namespace GitVersion

/-- A Go string: a sequence of bytes. -/
abbrev GoString := List Char

/-! ## Library functions used by the program (`strings`, `strconv`) -/

/-- Go `strings.HasPrefix(s, "v")`, for a one-byte prefix. -/
def HasPrefix (s : GoString) (c : Char) : Bool :=
  match s with
  | [] => false
  | d :: _ => d == c

/-- Go `strings.Contains(s, sep)` for a one-byte `sep`. -/
def Contains (s : GoString) (sep : Char) : Bool :=
  s.contains sep

/-- Go `strings.Split(s, sep)` for a one-byte `sep`: cut at every occurrence of `sep`;
the result always has (number of occurrences + 1) elements. -/
def Split (s : GoString) (sep : Char) : List GoString :=
  match s with
  | [] => [[]]
  | c :: cs =>
    if c = sep then [] :: Split cs sep
    else
      match Split cs sep with
      | [] => [[c]]
      | t :: ts => (c :: t) :: ts

/-- Go `strings.SplitN(s, sep, 2)` for a one-byte `sep`: cut at the first occurrence
of `sep` only. -/
def SplitN2 (s : GoString) (sep : Char) : List GoString :=
  match s with
  | [] => [[]]
  | c :: cs =>
    if c = sep then [[], cs]
    else
      match SplitN2 cs sep with
      | [] => [[c]]
      | t :: ts => (c :: t) :: ts

/-- The byte is an ASCII decimal digit. -/
def isDigit (c : Char) : Bool :=
  48 ≤ c.toNat && c.toNat ≤ 57

/-- Numeric value of an ASCII decimal digit (`ch - '0'`). -/
def digitVal (c : Char) : Nat :=
  c.toNat - 48

/-- The ASCII digit for a value below ten. -/
def digitChar (d : Nat) : Char :=
  match d with
  | 0 => '0'
  | 1 => '1'
  | 2 => '2'
  | 3 => '3'
  | 4 => '4'
  | 5 => '5'
  | 6 => '6'
  | 7 => '7'
  | 8 => '8'
  | _ => '9'

/-- The digit loop of `strconv.Atoi`/`ParseUint` in base ten: left to right,
`n = n*10 + digit`; any byte that is not a digit is a syntax error. -/
def parseDigits (s : GoString) (acc : Nat) : Option Nat :=
  match s with
  | [] => some acc
  | c :: cs => if isDigit c then parseDigits cs (acc * 10 + digitVal c) else none

/-- Largest value of a Go `int` on a 64-bit platform. -/
def maxInt : Int := 9223372036854775807

/-- Smallest value of a Go `int` on a 64-bit platform. -/
def minInt : Int := -9223372036854775808

/-- Two's-complement wrap-around of 64-bit `int` arithmetic. -/
def wrapInt (x : Int) : Int :=
  (x + 9223372036854775808) % 18446744073709551616 - 9223372036854775808

/-- Go `strconv.Atoi`: an optional sign (`+` or `-`), then at least one decimal
digit and nothing else; `none` stands for a non-nil error (syntax error, or
range error when the value does not fit an `int`). -/
def Atoi (s : GoString) : Option Int :=
  match s with
  | [] => none
  | c :: cs =>
    if c = '-' then
      if cs = [] then none
      else
        match parseDigits cs 0 with
        | none => none
        | some n => if (n : Int) ≤ 9223372036854775808 then some (-(n : Int)) else none
    else
      let body := if c = '+' then cs else c :: cs
      if body = [] then none
      else
        match parseDigits body 0 with
        | none => none
        | some n => if (n : Int) ≤ maxInt then some (n : Int) else none

/-- Decimal digits of `n`, most significant first; `fuel` bounds the number of
digits produced. -/
def decimalFuel : Nat → Nat → GoString
  | 0, _ => []
  | fuel + 1, n =>
    if n < 10 then [digitChar n]
    else decimalFuel fuel (n / 10) ++ [digitChar (n % 10)]

/-- Decimal representation of a natural number, without leading zeros. -/
def decimal (n : Nat) : GoString :=
  decimalFuel (n + 1) n

/-- Go `strconv.Itoa`: decimal representation of an `int`, with a leading `-` for
negative values. -/
def Itoa (i : Int) : GoString :=
  if i < 0 then '-' :: decimal i.natAbs else decimal i.natAbs

/-! ## The program state and its failures -/

/-- The package-level variables of `main.go` after parsing (`hasPrefix` is the
variable `prefix`, `buildMeta` is the variable `meta`). -/
structure ParsedVersion where
  major : Int
  minor : Int
  patch : Int
  commitsAhead : Int
  preRelease : GoString
  buildMeta : GoString
  hasPrefix : Bool
  dirty : Bool
  deriving DecidableEq, Repr

/-- Ways in which `main` stops without printing a version. -/
inductive Fatal where
  /-- `os.Exit(code)` after logging the error. -/
  | exit (code : Nat)
  /-- A run-time panic: slice bounds or index out of range. -/
  | panicOutOfRange
  deriving DecidableEq, Repr

/-- The failure called `InvalidDescribeFormat`: exit code 3. -/
def InvalidDescribeFormat : Fatal := Fatal.exit 3

/-- The failures called `MalformedVersionCore`: exit codes 4 (the core does not
split into three tokens), 5, 6 and 7 (major, minor, patch is not an integer). -/
def isMalformedVersionCore (e : Fatal) : Bool :=
  match e with
  | Fatal.exit 4 => true
  | Fatal.exit 5 => true
  | Fatal.exit 6 => true
  | Fatal.exit 7 => true
  | _ => false

/-! ## `main`, stage by stage -/

deriving instance DecidableEq for Except

/-- Lines 35-44: the describe string of a tagged repository.  Returns
`(commitsAhead, dirty)`. -/
def parseDescribe (tag rawDescribe : GoString) : Except Fatal (Int × Bool) :=
  if rawDescribe.length < tag.length + 1 then Except.error Fatal.panicOutOfRange
  else
    let describe := Split (rawDescribe.drop (tag.length + 1)) '-'
    match describe[0]? with
    | none => Except.error Fatal.panicOutOfRange
    | some d0 =>
      match Atoi d0 with
      | none => Except.error (Fatal.exit 3)
      | some n => Except.ok (n, decide (describe.length > 2))

/-- Lines 28-45: the fallback for a repository without tags or commits, or the
describe parsing otherwise.  Returns `(tag, prefix, dirty, commitsAhead)`. -/
def resolveInputs (tag rawDescribe : GoString) (tagErr describeErr : Bool) :
    Except Fatal (GoString × Bool × Bool × Int) :=
  if tagErr || describeErr then
    Except.ok ("v0.0.0".toList, true, true, 0)
  else
    match parseDescribe tag rawDescribe with
    | Except.error e => Except.error e
    | Except.ok (n, d) => Except.ok (tag, false, d, n)

/-- Lines 47-51: the version text and the prefix flag. -/
def stripPrefix (tag : GoString) ( hasPrefix : Bool) : GoString × Bool :=
  if HasPrefix tag 'v' then (tag.drop 1, true) else ([], hasPrefix)

/-- Lines 53-59: the build metadata.  Returns `(version, meta)`. -/
def splitMeta (version : GoString) : Except Fatal (GoString × GoString) :=
  if Contains version '+' then
    let split := Split version '+'
    match split[0]?, split[1]? with
    | some v, some m => Except.ok (v, m)
    | _, _ => Except.error Fatal.panicOutOfRange
  else Except.ok (version, [])

/-- Lines 61-65: the prerelease.  Returns `(version, preRelease)`. -/
def splitPreRelease (version : GoString) : Except Fatal (GoString × GoString) :=
  if Contains version '-' then
    let split := SplitN2 version '-'
    match split[0]?, split[1]? with
    | some v, some p => Except.ok (v, p)
    | _, _ => Except.error Fatal.panicOutOfRange
  else Except.ok (version, [])

/-- Lines 67-92: the numeric core.  Returns `(major, minor, patch)`. -/
def parseCore (version : GoString) : Except Fatal (Int × Int × Int) :=
  if version = [] then Except.ok (0, 0, 0)
  else
    let split := Split version '.'
    if split.length ≠ 3 then Except.error (Fatal.exit 4)
    else
      match split[0]?, split[1]?, split[2]? with
      | some a, some b, some c =>
        match Atoi a with
        | none => Except.error (Fatal.exit 5)
        | some major =>
          match Atoi b with
          | none => Except.error (Fatal.exit 6)
          | some minor =>
            match Atoi c with
            | none => Except.error (Fatal.exit 7)
            | some patch => Except.ok (major, minor, patch)
      | _, _, _ => Except.error Fatal.panicOutOfRange

/-- Lines 47-92: the tag of the repository. -/
def parseTag (tag : GoString) (prefix0 dirty : Bool) (commitsAhead : Int) :
    Except Fatal ParsedVersion :=
  let (version, hasPrefix) := stripPrefix tag prefix0
  match splitMeta version with
  | Except.error e => Except.error e
  | Except.ok (version, buildMeta) =>
    match splitPreRelease version with
    | Except.error e => Except.error e
    | Except.ok (version, preRelease) =>
      match parseCore version with
      | Except.error e => Except.error e
      | Except.ok (major, minor, patch) =>
        Except.ok
          { major := major, minor := minor, patch := patch, commitsAhead := commitsAhead,
            preRelease := preRelease, buildMeta := buildMeta, hasPrefix := hasPrefix,
            dirty := dirty }

/-- Lines 28-92 (`Parse`): the package-level variables before formatting. -/
def parse (tag rawDescribe : GoString) (tagErr describeErr : Bool) :
    Except Fatal ParsedVersion :=
  match resolveInputs tag rawDescribe tagErr describeErr with
  | Except.error e => Except.error e
  | Except.ok (tag, prefix0, dirty, commitsAhead) => parseTag tag prefix0 dirty commitsAhead

/-- Lines 102-105: the patch number that is written (`patch++` wraps around). -/
def bumpedPatch (pv : ParsedVersion) : Int :=
  if (pv.commitsAhead > 0 || pv.dirty) && pv.preRelease = [] then wrapInt (pv.patch + 1)
  else pv.patch

/-- Lines 108-122: the prerelease clause. -/
def preReleaseClause (pv : ParsedVersion) : GoString :=
  if pv.preRelease ≠ [] ∨ pv.commitsAhead ≠ 0 then
    "-".toList ++
      (if pv.preRelease = [] then "dev.".toList ++ Itoa pv.commitsAhead
       else if pv.preRelease ≠ [] ∧ pv.commitsAhead = 0 then pv.preRelease
       else if pv.preRelease ≠ [] ∧ pv.commitsAhead ≠ 0 then
         pv.preRelease ++ ".".toList ++ Itoa pv.commitsAhead
       else [])
  else []

/-- Lines 124-134: the build-metadata clause. -/
def metaClause (pv : ParsedVersion) : GoString :=
  if pv.buildMeta ≠ [] ∨ pv.dirty = true then
    "+".toList ++ (if pv.buildMeta ≠ [] then pv.buildMeta else []) ++
      (if pv.dirty = true ∧ pv.buildMeta ≠ [] then ".dirty".toList
       else if pv.dirty = true ∧ pv.buildMeta = [] then "dirty".toList
       else [])
  else []

/-- Lines 94-136 (`Format`): the string written by the builder. -/
def format (pv : ParsedVersion) : GoString :=
  (if pv.hasPrefix then "v".toList else []) ++ Itoa pv.major ++ ".".toList ++
    Itoa pv.minor ++ ".".toList ++ Itoa (bumpedPatch pv) ++ preReleaseClause pv ++
    metaClause pv

/-- The whole of `main`: the line printed on standard output, or the failure. -/
def gitversion (tag rawDescribe : GoString) (tagErr describeErr : Bool) :
    Except Fatal GoString :=
  match parse tag rawDescribe tagErr describeErr with
  | Except.error e => Except.error e
  | Except.ok pv => Except.ok (format pv)

/-! ## Reference definitions, written from the specification -/

/-- The reference definition of `Format` (specification, section 4.2), for a
version whose numbers are non-negative: the pieces of the output in order. -/
def formatSpec (pv : ParsedVersion) : GoString :=
  (if pv.hasPrefix = true then "v".toList else []) ++
    decimal pv.major.toNat ++ ".".toList ++ decimal pv.minor.toNat ++ ".".toList ++
    (if (pv.commitsAhead > 0 ∨ pv.dirty = true) ∧ pv.preRelease = [] then
       decimal (pv.patch + 1).toNat
     else decimal pv.patch.toNat) ++
    (if pv.preRelease ≠ [] ∨ pv.commitsAhead ≠ 0 then
       "-".toList ++
         (if pv.preRelease = [] then "dev.".toList ++ decimal pv.commitsAhead.toNat
          else if pv.commitsAhead = 0 then pv.preRelease
          else pv.preRelease ++ ".".toList ++ decimal pv.commitsAhead.toNat)
     else []) ++
    (if pv.buildMeta ≠ [] ∨ pv.dirty = true then
       "+".toList ++ pv.buildMeta ++
         (if pv.buildMeta ≠ [] ∧ pv.dirty = true then ".dirty".toList
          else if pv.dirty = true then "dirty".toList
          else [])
     else [])

/-- The describe string of specification section 3,
`<tag>-<commitsAhead>-g<hash>[-dirty]`. -/
def describeString (tag : GoString) (commitsAhead : Nat) (hash : GoString) (dirty : Bool) :
    GoString :=
  tag ++ "-".toList ++ decimal commitsAhead ++ "-g".toList ++ hash ++
    (if dirty = true then "-dirty".toList else [])

/-- Value of a string of decimal digits. -/
def natValue (s : GoString) : Nat :=
  s.foldl (fun acc c => acc * 10 + digitVal c) 0

/-- A token is a non-negative integer written in decimal: a non-empty string of
decimal digits, of any size. -/
def isDigitString (s : GoString) : Bool :=
  !s.isEmpty && s.all isDigit

/-- A token is a valid non-negative integer within the `int` range: a non-empty
string of decimal digits whose value fits the `int` type of the parsed fields. -/
def isValidNonNegInt (s : GoString) : Bool :=
  !s.isEmpty && s.all isDigit && decide ((natValue s : Int) ≤ maxInt)

/-- The version text of specification section 4.1, steps 3 to 5, for a tag that
begins with `v`: the tag without its first byte, cut before the first `+` and
then before the first `-`. -/
def versionCoreText (tag : GoString) : GoString :=
  ((tag.drop 1).takeWhile (fun ch => ch != '+')).takeWhile (fun ch => ch != '-')

/-- The commit-count token of specification section 4.1, step 2: the describe
string without its first `len(tag) + 1` bytes is split on `-`; the token is
the first element. -/
def commitCountToken (tag rawDescribe : GoString) : GoString :=
  (Split (rawDescribe.drop (tag.length + 1)) '-').headD []

/-- A token without one leading `+` sign, if it has one. -/
def dropPlusSign (s : GoString) : GoString :=
  match s with
  | [] => []
  | c :: cs => if c = '+' then cs else c :: cs

/-- The version text that remains after the build-metadata split (specification
section 4.1, step 4), for a tag that begins with `v`: the tag without its first
byte, cut before the first `+`. -/
def versionFront (tag : GoString) : GoString :=
  (tag.drop 1).takeWhile (fun ch => ch != '+')

/-- The entire text after the first `-` of the version text that remains after
the build-metadata split; empty when that text has no `-`. -/
def preReleaseText (tag : GoString) : GoString :=
  ((versionFront tag).dropWhile (fun ch => ch != '-')).drop 1

/-- The entire text after the first `+` of the tag without its first byte,
further `+` bytes included; empty when there is no `+`. -/
def textAfterFirstPlus (tag : GoString) : GoString :=
  ((tag.drop 1).dropWhile (fun ch => ch != '+')).drop 1

/-- A token is signed: its first byte is `+` or `-`. -/
def hasLeadingSign (s : GoString) : Bool :=
  HasPrefix s '+' || HasPrefix s '-'

/-! ### Semantic Versioning 2.0.0, written from its grammar -/

/-- An identifier character of Semantic Versioning: an ASCII letter, a digit or
a hyphen. -/
def isIdentChar (c : Char) : Bool :=
  isDigit c || (65 ≤ c.toNat && c.toNat ≤ 90) || (97 ≤ c.toNat && c.toNat ≤ 122) || c == '-'

/-- A numeric identifier: `0`, or digits that do not begin with `0`. -/
def isNumericId (s : GoString) : Bool :=
  !s.isEmpty && s.all isDigit && (s.length == 1 || s.head? != some '0')

/-- A prerelease identifier: identifier characters, at least one; when all of
them are digits, a numeric identifier. -/
def isPreReleaseId (s : GoString) : Bool :=
  !s.isEmpty && s.all isIdentChar && (!s.all isDigit || isNumericId s)

/-- A build identifier: identifier characters, at least one. -/
def isBuildId (s : GoString) : Bool :=
  !s.isEmpty && s.all isIdentChar

/-- The version core `major.minor.patch` of three numeric identifiers. -/
def isSemverCore (s : GoString) : Bool :=
  match Split s '.' with
  | [a, b, c] => isNumericId a && isNumericId b && isNumericId c
  | _ => false

/-- A prerelease: dot-separated prerelease identifiers. -/
def isPreRelease (s : GoString) : Bool :=
  (Split s '.').all isPreReleaseId

/-- A build: dot-separated build identifiers. -/
def isBuild (s : GoString) : Bool :=
  (Split s '.').all isBuildId

/-- The version core of a Semantic Versioning string: the text before the first
`+`, cut before its first `-`. -/
def semverCore (s : GoString) : GoString :=
  (s.takeWhile (fun ch => ch != '+')).takeWhile (fun ch => ch != '-')

/-- A valid Semantic Versioning 2.0.0 string: a version core, then optionally
`-` and a prerelease, then optionally `+` and a build.  The core holds no `-`
and no `+` and the prerelease holds no `+`, so the build begins after the first
`+` and the prerelease after the first `-` before it. -/
def isSemver (s : GoString) : Bool :=
  isSemverCore (semverCore s) &&
    (!(s.takeWhile (fun ch => ch != '+')).contains '-' ||
      isPreRelease (((s.takeWhile (fun ch => ch != '+')).dropWhile
        (fun ch => ch != '-')).drop 1)) &&
    (!s.contains '+' || isBuild ((s.dropWhile (fun ch => ch != '+')).drop 1))

/-- The numbers of the version core fit an `int`: major, minor and patch + 1
are at most `maxInt`. -/
def semverCoreInRange (s : GoString) : Bool :=
  match Split (semverCore s) '.' with
  | [a, b, c] =>
    decide ((natValue a : Int) ≤ maxInt) && decide ((natValue b : Int) ≤ maxInt) &&
      decide ((natValue c : Int) + 1 ≤ maxInt)
  | _ => false

/-! ## Facts about the library functions -/

theorem isDigit_digitChar (d : Nat) : isDigit (digitChar d) = true := by
  unfold digitChar
  split <;> decide

theorem digitVal_digitChar (d : Nat) (h : d < 10) : digitVal (digitChar d) = d := by
  interval_cases d <;> rfl

theorem isDigit_ne_minus (c : Char) (h : isDigit c = true) : c ≠ '-' := by
  intro hc
  subst hc
  exact absurd h (by decide)

theorem isDigit_ne_plus (c : Char) (h : isDigit c = true) : c ≠ '+' := by
  intro hc
  subst hc
  exact absurd h (by decide)

theorem isDigit_ne_dot (c : Char) (h : isDigit c = true) : c ≠ '.' := by
  intro hc
  subst hc
  exact absurd h (by decide)

theorem decimalFuel_stable (f : Nat) :
    ∀ g n, n < f → n < g → decimalFuel f n = decimalFuel g n := by
  induction f with
  | zero => intro g n hf; omega
  | succ f ih =>
    intro g n hf hg
    cases g with
    | zero => omega
    | succ g =>
      unfold decimalFuel
      by_cases h : n < 10
      · simp [h]
      · simp only [h, if_false]
        rw [ih g (n / 10) (by omega) (by omega)]

theorem decimal_of_lt (n : Nat) (h : n < 10) : decimal n = [digitChar n] := by
  unfold decimal decimalFuel
  simp [h]

theorem decimal_of_ge (n : Nat) (h : 10 ≤ n) :
    decimal n = decimal (n / 10) ++ [digitChar (n % 10)] := by
  have h10 : ¬ n < 10 := by omega
  have e : decimal n = decimalFuel n (n / 10) ++ [digitChar (n % 10)] := by
    unfold decimal
    rw [decimalFuel]
    simp [h10]
  rw [e]
  unfold decimal
  rw [decimalFuel_stable n (n / 10 + 1) (n / 10) (by omega) (by omega)]

theorem decimal_digits (n : Nat) : ∀ c ∈ decimal n, isDigit c = true := by
  induction n using Nat.strong_induction_on with
  | _ n ih =>
    by_cases h : n < 10
    · rw [decimal_of_lt n h]
      intro c hc
      simp only [List.mem_singleton] at hc
      subst hc
      exact isDigit_digitChar n
    · rw [decimal_of_ge n (by omega)]
      intro c hc
      rcases List.mem_append.mp hc with hc | hc
      · exact ih (n / 10) (by omega) c hc
      · simp only [List.mem_singleton] at hc
        subst hc
        exact isDigit_digitChar _

theorem decimal_ne_nil (n : Nat) : decimal n ≠ [] := by
  by_cases h : n < 10
  · rw [decimal_of_lt n h]; simp
  · rw [decimal_of_ge n (by omega)]; simp

theorem parseDigits_append (a b : GoString) :
    ∀ acc, parseDigits (a ++ b) acc = (parseDigits a acc).bind (parseDigits b) := by
  induction a with
  | nil => intro acc; simp [parseDigits]
  | cons c cs ih =>
    intro acc
    simp only [List.cons_append, parseDigits]
    by_cases h : isDigit c = true
    · simp [h, ih]
    · simp [h]

theorem parseDigits_decimal (n : Nat) : parseDigits (decimal n) 0 = some n := by
  induction n using Nat.strong_induction_on with
  | _ n ih =>
    by_cases h : n < 10
    · rw [decimal_of_lt n h]
      simp [parseDigits, isDigit_digitChar, digitVal_digitChar n h]
    · rw [decimal_of_ge n (by omega), parseDigits_append, ih (n / 10) (by omega)]
      simp only [Option.some_bind, parseDigits, isDigit_digitChar, if_true]
      rw [digitVal_digitChar _ (Nat.mod_lt _ (by decide))]
      congr 1
      omega

theorem Atoi_decimal (n : Nat) (h : (n : Int) ≤ maxInt) : Atoi (decimal n) = some (n : Int) := by
  have hp := parseDigits_decimal n
  have hd := decimal_digits n
  have hne := decimal_ne_nil n
  cases hs : decimal n with
  | nil => exact absurd hs hne
  | cons c cs =>
    rw [hs] at hp hd
    have hc : isDigit c = true := hd c (List.mem_cons_self _ _)
    simp [Atoi, isDigit_ne_minus c hc, isDigit_ne_plus c hc, hp, h]

theorem Itoa_natCast (n : Nat) : Itoa (n : Int) = decimal n := by
  unfold Itoa
  simp

theorem Itoa_of_nonneg (x : Int) (h : 0 ≤ x) : Itoa x = decimal x.toNat := by
  obtain ⟨n, rfl⟩ := Int.eq_ofNat_of_zero_le h
  rw [Itoa_natCast]
  simp

theorem wrapInt_of_inRange (x : Int) (h0 : minInt ≤ x) (h1 : x ≤ maxInt) : wrapInt x = x := by
  unfold minInt at h0
  unfold maxInt at h1
  unfold wrapInt
  omega

theorem Split_ne_nil (sep : Char) : ∀ s : GoString, Split s sep ≠ [] := by
  intro s
  induction s with
  | nil => simp [Split]
  | cons c cs ih =>
    unfold Split
    by_cases h : c = sep
    · simp [h]
    · simp only [h, if_false]
      split <;> simp

theorem Split_of_not_mem (sep : Char) :
    ∀ s : GoString, sep ∉ s → Split s sep = [s] := by
  intro s
  induction s with
  | nil => intro _; simp [Split]
  | cons c cs ih =>
    intro h
    have hc : c ≠ sep := fun e => h (by simp [e])
    have hcs : sep ∉ cs := fun e => h (List.mem_cons_of_mem _ e)
    unfold Split
    simp [hc, ih hcs]

theorem Split_append_sep (sep : Char) (b : GoString) :
    ∀ a : GoString, sep ∉ a → Split (a ++ sep :: b) sep = a :: Split b sep := by
  intro a
  induction a with
  | nil => intro _; simp [Split]
  | cons c cs ih =>
    intro h
    have hc : c ≠ sep := fun e => h (by simp [e])
    have hcs : sep ∉ cs := fun e => h (List.mem_cons_of_mem _ e)
    rw [List.cons_append, Split]
    simp [hc, ih hcs]

theorem SplitN2_of_not_mem (sep : Char) :
    ∀ s : GoString, sep ∉ s → SplitN2 s sep = [s] := by
  intro s
  induction s with
  | nil => intro _; simp [SplitN2]
  | cons c cs ih =>
    intro h
    have hc : c ≠ sep := fun e => h (by simp [e])
    have hcs : sep ∉ cs := fun e => h (List.mem_cons_of_mem _ e)
    unfold SplitN2
    simp [hc, ih hcs]

theorem SplitN2_append_sep (sep : Char) (b : GoString) :
    ∀ a : GoString, sep ∉ a → SplitN2 (a ++ sep :: b) sep = [a, b] := by
  intro a
  induction a with
  | nil => intro _; simp [SplitN2]
  | cons c cs ih =>
    intro h
    have hc : c ≠ sep := fun e => h (by simp [e])
    have hcs : sep ∉ cs := fun e => h (List.mem_cons_of_mem _ e)
    rw [List.cons_append, SplitN2]
    simp [hc, ih hcs]

theorem Contains_iff (s : GoString) (sep : Char) : Contains s sep = true ↔ sep ∈ s := by
  simp [Contains]

theorem minus_not_mem_decimal (n : Nat) : '-' ∉ decimal n :=
  fun h => isDigit_ne_minus _ (decimal_digits n _ h) rfl

theorem plus_not_mem_decimal (n : Nat) : '+' ∉ decimal n :=
  fun h => isDigit_ne_plus _ (decimal_digits n _ h) rfl

theorem dot_not_mem_decimal (n : Nat) : '.' ∉ decimal n :=
  fun h => isDigit_ne_dot _ (decimal_digits n _ h) rfl

theorem drop_tag (t rest : GoString) : (t ++ '-' :: rest).drop (t.length + 1) = rest := by
  induction t with
  | nil => simp
  | cons c cs ih => simp

/-- The describe string `<tag>-<N>-g<hash>` of a clean tree. -/
theorem parseDescribe_clean (t h : GoString) (N : Nat) (hN : (N : Int) ≤ maxInt)
    (hh : '-' ∉ h) :
    parseDescribe t (t ++ '-' :: (decimal N ++ '-' :: 'g' :: h)) = Except.ok ((N : Int), false) := by
  have hgh : '-' ∉ 'g' :: h := by
    intro hm
    rcases List.mem_cons.mp hm with e | e
    · exact absurd e (by decide)
    · exact hh e
  unfold parseDescribe
  rw [drop_tag, Split_append_sep _ _ _ (minus_not_mem_decimal N), Split_of_not_mem _ _ hgh]
  simp [Atoi_decimal N hN]

/-- The describe string `<tag>-<N>-g<hash>-dirty` of a dirty tree. -/
theorem parseDescribe_dirty (t h : GoString) (N : Nat) (hN : (N : Int) ≤ maxInt)
    (hh : '-' ∉ h) :
    parseDescribe t (t ++ '-' :: (decimal N ++ '-' :: ('g' :: h ++ '-' :: "dirty".toList)))
      = Except.ok ((N : Int), true) := by
  have hgh : '-' ∉ 'g' :: h := by
    intro hm
    rcases List.mem_cons.mp hm with e | e
    · exact absurd e (by decide)
    · exact hh e
  unfold parseDescribe
  rw [drop_tag, Split_append_sep _ _ _ (minus_not_mem_decimal N),
    Split_append_sep _ _ _ hgh, Split_of_not_mem _ "dirty".toList (by decide)]
  simp [Atoi_decimal N hN]

theorem splitMeta_error (v : GoString) (e : Fatal) (h : splitMeta v = Except.error e) :
    e = Fatal.panicOutOfRange := by
  unfold splitMeta at h
  split at h
  · simp only at h
    split at h
    · cases h
    · cases h; rfl
  · cases h

theorem splitPreRelease_error (v : GoString) (e : Fatal)
    (h : splitPreRelease v = Except.error e) : e = Fatal.panicOutOfRange := by
  unfold splitPreRelease at h
  split at h
  · simp only at h
    split at h
    · cases h
    · cases h; rfl
  · cases h

theorem parseCore_error (v : GoString) (e : Fatal) (h : parseCore v = Except.error e) :
    isMalformedVersionCore e = true ∨ e = Fatal.panicOutOfRange := by
  unfold parseCore at h
  split at h
  · cases h
  · simp only at h
    split at h
    · cases h; left; rfl
    · split at h
      · split at h
        · cases h; left; rfl
        · split at h
          · cases h; left; rfl
          · split at h
            · cases h; left; rfl
            · cases h
      · cases h; right; rfl

theorem parseTag_error (tag : GoString) (p d : Bool) (n : Int) (e : Fatal)
    (h : parseTag tag p d n = Except.error e) :
    isMalformedVersionCore e = true ∨ e = Fatal.panicOutOfRange := by
  unfold parseTag at h
  simp only at h
  split at h
  · cases h
    right
    exact splitMeta_error _ _ (by assumption)
  · split at h
    · cases h
      right
      exact splitPreRelease_error _ _ (by assumption)
    · split at h
      · cases h
        exact parseCore_error _ _ (by assumption)
      · cases h

theorem parseTag_fields (tag : GoString) (p d : Bool) (n : Int) (pv : ParsedVersion)
    (h : parseTag tag p d n = Except.ok pv) : pv.commitsAhead = n ∧ pv.dirty = d := by
  unfold parseTag at h
  simp only at h
  split at h
  · cases h
  · split at h
    · cases h
    · split at h
      · cases h
      · cases h
        exact ⟨rfl, rfl⟩

theorem parse_of_describe (tag raw : GoString) (n : Int) (d : Bool)
    (h : parseDescribe tag raw = Except.ok (n, d)) :
    parse tag raw false false = parseTag tag false d n := by
  unfold parse resolveInputs
  simp [h]

theorem parseDescribe_describeString (t h : GoString) (N : Nat) (d : Bool)
    (hN : (N : Int) ≤ maxInt) (hh : '-' ∉ h) :
    parseDescribe t (describeString t N h d) = Except.ok ((N : Int), d) := by
  cases d with
  | false =>
    have e : describeString t N h false = t ++ '-' :: (decimal N ++ '-' :: 'g' :: h) := by
      simp [describeString]
    rw [e]
    exact parseDescribe_clean t h N hN hh
  | true =>
    have e : describeString t N h true
        = t ++ '-' :: (decimal N ++ '-' :: ('g' :: h ++ '-' :: "dirty".toList)) := by
      simp [describeString]
    rw [e]
    exact parseDescribe_dirty t h N hN hh

theorem wrapInt_succ_natCast (p : Nat) (h : (p : Int) + 1 ≤ maxInt) :
    wrapInt ((p : Int) + 1) = (p : Int) + 1 :=
  wrapInt_of_inRange _ (by unfold minInt; omega) h

theorem Itoa_natCast_succ (p : Nat) : Itoa ((p : Int) + 1) = decimal (p + 1) := by
  have e := Itoa_natCast (p + 1)
  push_cast at e
  exact e

theorem parseCore_decimal (M m p : Nat) (hM : (M : Int) ≤ maxInt) (hm : (m : Int) ≤ maxInt)
    (hp : (p : Int) ≤ maxInt) :
    parseCore (decimal M ++ '.' :: (decimal m ++ '.' :: decimal p))
      = Except.ok ((M : Int), (m : Int), (p : Int)) := by
  unfold parseCore
  have hne : decimal M ++ '.' :: (decimal m ++ '.' :: decimal p) ≠ [] := by
    simp [decimal_ne_nil]
  rw [if_neg hne, Split_append_sep _ _ _ (dot_not_mem_decimal M),
    Split_append_sep _ _ _ (dot_not_mem_decimal m), Split_of_not_mem _ _ (dot_not_mem_decimal p)]
  simp [Atoi_decimal, hM, hm, hp]

theorem plus_not_mem_core (M m p : Nat) :
    '+' ∉ decimal M ++ '.' :: (decimal m ++ '.' :: decimal p) := by
  simp [plus_not_mem_decimal]

theorem minus_not_mem_core (M m p : Nat) :
    '-' ∉ decimal M ++ '.' :: (decimal m ++ '.' :: decimal p) := by
  simp [minus_not_mem_decimal]

theorem splitMeta_of_not_mem (v : GoString) (h : '+' ∉ v) : splitMeta v = Except.ok (v, []) := by
  unfold splitMeta
  have hc : Contains v '+' = false := by
    rw [Bool.eq_false_iff]
    intro hc
    exact h ((Contains_iff v '+').mp hc)
  simp [hc]

theorem splitMeta_append (a b : GoString) (ha : '+' ∉ a) (hb : '+' ∉ b) :
    splitMeta (a ++ '+' :: b) = Except.ok (a, b) := by
  unfold splitMeta
  have hc : Contains (a ++ '+' :: b) '+' = true := by
    rw [Contains_iff]
    simp
  rw [if_pos hc, Split_append_sep _ _ _ ha, Split_of_not_mem _ _ hb]
  rfl

theorem splitPreRelease_of_not_mem (v : GoString) (h : '-' ∉ v) :
    splitPreRelease v = Except.ok (v, []) := by
  unfold splitPreRelease
  have hc : Contains v '-' = false := by
    rw [Bool.eq_false_iff]
    intro hc
    exact h ((Contains_iff v '-').mp hc)
  simp [hc]

theorem splitPreRelease_append (a b : GoString) (ha : '-' ∉ a) :
    splitPreRelease (a ++ '-' :: b) = Except.ok (a, b) := by
  unfold splitPreRelease
  have hc : Contains (a ++ '-' :: b) '-' = true := by
    rw [Contains_iff]
    simp
  rw [if_pos hc, SplitN2_append_sep _ _ _ ha]
  rfl

/-- Parsing the tag `vM.m.p[-pre][+meta]`; an empty `pre` or `bm` stands for an
absent part. -/
theorem parseTag_semver (M m p : Nat) (pre bm : GoString) (p0 d : Bool) (n : Int)
    (hM : (M : Int) ≤ maxInt) (hm : (m : Int) ≤ maxInt) (hp : (p : Int) ≤ maxInt)
    (hpre : '+' ∉ pre) (hbm : '+' ∉ bm) :
    parseTag ('v' :: ((decimal M ++ '.' :: (decimal m ++ '.' :: decimal p)) ++
        (if pre = [] then [] else '-' :: pre)) ++ (if bm = [] then [] else '+' :: bm)) p0 d n
      = Except.ok { major := M, minor := m, patch := p, commitsAhead := n, preRelease := pre,
                    buildMeta := bm, hasPrefix := true, dirty := d } := by
  have hcore := parseCore_decimal M m p hM hm hp
  have hplus := plus_not_mem_core M m p
  have hminus := minus_not_mem_core M m p
  generalize decimal M ++ '.' :: (decimal m ++ '.' :: decimal p) = core at hcore hplus hminus
  have hleft : '+' ∉ core ++ (if pre = [] then [] else '-' :: pre) := by
    by_cases h : pre = []
    · simp [h, hplus]
    · simp [h, hplus, hpre]
  have hpr : splitPreRelease (core ++ (if pre = [] then [] else '-' :: pre))
      = Except.ok (core, pre) := by
    by_cases h : pre = []
    · simp [h, splitPreRelease_of_not_mem core hminus]
    · simp [h, splitPreRelease_append core pre hminus]
  have hsm : splitMeta (core ++ (if pre = [] then [] else '-' :: pre) ++
      (if bm = [] then [] else '+' :: bm))
      = Except.ok (core ++ (if pre = [] then [] else '-' :: pre), bm) := by
    by_cases h : bm = []
    · simp only [h, if_true, List.append_nil]
      exact splitMeta_of_not_mem _ hleft
    · simp only [h, if_false]
      exact splitMeta_append _ _ hleft hbm
  unfold parseTag stripPrefix
  simp only [HasPrefix, beq_self_eq_true, if_true, List.cons_append, List.drop_succ_cons,
    List.drop_zero]
  rw [hsm]
  simp only
  rw [hpr]
  simp only
  rw [hcore]

theorem gitversion_semver (M m p N : Nat) (pre bm h : GoString) (d : Bool)
    (hM : (M : Int) ≤ maxInt) (hm : (m : Int) ≤ maxInt) (hp : (p : Int) ≤ maxInt)
    (hN : (N : Int) ≤ maxInt) (hpre : '+' ∉ pre) (hbm : '+' ∉ bm) (hh : '-' ∉ h)
    (T : GoString)
    (hT : T = 'v' :: ((decimal M ++ '.' :: (decimal m ++ '.' :: decimal p)) ++
        (if pre = [] then [] else '-' :: pre)) ++ (if bm = [] then [] else '+' :: bm)) :
    gitversion T (describeString T N h d) false false
      = Except.ok (format { major := M, minor := m, patch := p, commitsAhead := N,
                            preRelease := pre, buildMeta := bm, hasPrefix := true,
                            dirty := d }) := by
  unfold gitversion
  rw [parse_of_describe _ _ _ _ (parseDescribe_describeString T h N d hN hh), hT,
    parseTag_semver M m p pre bm false d N hM hm hp hpre hbm]

theorem decimal_zero : decimal 0 = ['0'] := rfl

theorem parseDigits_eq (s : GoString) :
    ∀ acc, parseDigits s acc
      = if s.all isDigit = true then some (s.foldl (fun a c => a * 10 + digitVal c) acc)
        else none := by
  induction s with
  | nil => intro acc; simp [parseDigits]
  | cons c cs ih =>
    intro acc
    unfold parseDigits
    by_cases h : isDigit c = true
    · simp [h, ih]
    · simp [h]

theorem Atoi_of_no_minus (s : GoString) (h : '-' ∉ s) :
    Atoi s = if isValidNonNegInt (dropPlusSign s) = true
      then some ((natValue (dropPlusSign s) : Nat) : Int) else none := by
  cases s with
  | nil => simp [Atoi, dropPlusSign, isValidNonNegInt]
  | cons c cs =>
    have hc : c ≠ '-' := fun e => h (by simp [e])
    unfold Atoi
    simp only [hc, if_false, dropPlusSign]
    generalize (if c = '+' then cs else c :: cs) = body
    by_cases hb : body = []
    · simp [hb, isValidNonNegInt]
    · rw [if_neg hb, parseDigits_eq]
      by_cases hd : body.all isDigit = true
      · by_cases hr : ((natValue body : Nat) : Int) ≤ maxInt
        · have hr2 := hr
          unfold natValue at hr2
          simp [isValidNonNegInt, hb, hd, hr, hr2, natValue]
        · have hr2 := hr
          unfold natValue at hr2
          simp [isValidNonNegInt, hb, hd, hr, hr2, natValue]
      · simp [isValidNonNegInt, hd]

theorem dropPlusSign_of_not_mem (s : GoString) (h : '+' ∉ s) : dropPlusSign s = s := by
  cases s with
  | nil => rfl
  | cons c cs =>
    have hc : c ≠ '+' := fun e => h (by simp [e])
    simp [dropPlusSign, hc]

theorem Atoi_unsigned (s : GoString) (h1 : '-' ∉ s) (h2 : '+' ∉ s) :
    Atoi s = if isValidNonNegInt s = true then some ((natValue s : Nat) : Int) else none := by
  rw [Atoi_of_no_minus s h1, dropPlusSign_of_not_mem s h2]

theorem not_mem_takeWhile (sep : Char) (s : GoString) :
    sep ∉ s.takeWhile (fun ch => ch != sep) := by
  intro h
  have := List.mem_takeWhile_imp h
  simp at this

theorem takeWhile_of_not_mem (sep : Char) :
    ∀ s : GoString, sep ∉ s → s.takeWhile (fun ch => ch != sep) = s := by
  intro s
  induction s with
  | nil => intro _; rfl
  | cons c cs ih =>
    intro h
    have hc : c ≠ sep := fun e => h (by simp [e])
    have hcs : sep ∉ cs := fun e => h (List.mem_cons_of_mem _ e)
    simp [List.takeWhile_cons, hc, ih hcs]

theorem dropWhile_of_not_mem (sep : Char) :
    ∀ s : GoString, sep ∉ s → s.dropWhile (fun ch => ch != sep) = [] := by
  intro s
  induction s with
  | nil => intro _; rfl
  | cons c cs ih =>
    intro h
    have hc : c ≠ sep := fun e => h (by simp [e])
    have hcs : sep ∉ cs := fun e => h (List.mem_cons_of_mem _ e)
    simp [List.dropWhile_cons, hc, ih hcs]

theorem eq_append_of_mem (sep : Char) :
    ∀ s : GoString, sep ∈ s →
      s = s.takeWhile (fun ch => ch != sep) ++
        sep :: (s.dropWhile (fun ch => ch != sep)).drop 1 := by
  intro s
  induction s with
  | nil => intro h; simp at h
  | cons c cs ih =>
    intro h
    by_cases hc : c = sep
    · subst hc
      simp [List.takeWhile_cons, List.dropWhile_cons]
    · have hcs : sep ∈ cs := by
        rcases List.mem_cons.mp h with e | e
        · exact absurd e.symm hc
        · exact e
      have e := ih hcs
      simp only [List.takeWhile_cons, List.dropWhile_cons, bne_iff_ne, ne_eq, hc,
        not_false_eq_true, decide_True, if_true, List.cons_append]
      rw [← e]

theorem Split_head (sep : Char) (s : GoString) :
    (Split s sep)[0]? = some (s.takeWhile (fun ch => ch != sep)) := by
  by_cases h : sep ∈ s
  · have e := eq_append_of_mem sep s h
    have e2 : Split s sep = s.takeWhile (fun ch => ch != sep) ::
        Split ((s.dropWhile (fun ch => ch != sep)).drop 1) sep := by
      conv_lhs => rw [e]
      exact Split_append_sep sep _ _ (not_mem_takeWhile sep s)
    rw [e2]
    simp
  · rw [Split_of_not_mem sep s h, takeWhile_of_not_mem sep s h]
    simp

theorem mem_of_mem_Split (sep : Char) :
    ∀ (s t : GoString), t ∈ Split s sep → ∀ x ∈ t, x ∈ s := by
  intro s
  induction s with
  | nil =>
    intro t ht x hx
    simp [Split] at ht
    subst ht
    simp at hx
  | cons c cs ih =>
    intro t ht x hx
    unfold Split at ht
    by_cases hc : c = sep
    · simp only [hc, if_true, List.mem_cons] at ht
      rcases ht with e | e
      · subst e; simp at hx
      · exact List.mem_cons_of_mem _ (ih t e x hx)
    · simp only [hc, if_false] at ht
      cases hs : Split cs sep with
      | nil => exact absurd hs (Split_ne_nil sep cs)
      | cons u us =>
        rw [hs] at ht
        simp only [List.mem_cons] at ht
        rcases ht with e | e
        · subst e
          rcases List.mem_cons.mp hx with e2 | e2
          · simp [e2]
          · exact List.mem_cons_of_mem _ (ih u (by rw [hs]; simp) x e2)
        · exact List.mem_cons_of_mem _ (ih t (by rw [hs]; simp [e]) x hx)

theorem Split_second (sep : Char) (s : GoString) (h : sep ∈ s) :
    (Split s sep)[1]?
      = some (((s.dropWhile (fun ch => ch != sep)).drop 1).takeWhile (fun ch => ch != sep)) := by
  have e := eq_append_of_mem sep s h
  have e2 : Split s sep = s.takeWhile (fun ch => ch != sep) ::
      Split ((s.dropWhile (fun ch => ch != sep)).drop 1) sep := by
    conv_lhs => rw [e]
    exact Split_append_sep sep _ _ (not_mem_takeWhile sep s)
  rw [e2]
  simpa using Split_head sep ((s.dropWhile (fun ch => ch != sep)).drop 1)

theorem splitMeta_eq (v : GoString) :
    splitMeta v = Except.ok (v.takeWhile (fun ch => ch != '+'),
      ((v.dropWhile (fun ch => ch != '+')).drop 1).takeWhile (fun ch => ch != '+')) := by
  by_cases h : '+' ∈ v
  · unfold splitMeta
    rw [if_pos ((Contains_iff v '+').mpr h)]
    simp only [Split_head, Split_second '+' v h]
  · rw [splitMeta_of_not_mem v h, takeWhile_of_not_mem '+' v h, dropWhile_of_not_mem '+' v h]
    rfl

theorem splitPreRelease_eq (v : GoString) :
    splitPreRelease v = Except.ok (v.takeWhile (fun ch => ch != '-'),
      (v.dropWhile (fun ch => ch != '-')).drop 1) := by
  by_cases h : '-' ∈ v
  · have e := eq_append_of_mem '-' v h
    conv_lhs => rw [e]
    exact splitPreRelease_append _ _ (not_mem_takeWhile '-' v)
  · rw [splitPreRelease_of_not_mem v h, takeWhile_of_not_mem '-' v h,
      dropWhile_of_not_mem '-' v h]
    rfl

theorem parseTag_of_v (tag : GoString) (p0 d : Bool) (n : Int)
    (hv : HasPrefix tag 'v' = true) :
    parseTag tag p0 d n =
      match parseCore (versionCoreText tag) with
      | Except.error e => Except.error e
      | Except.ok (a, b, c) =>
        Except.ok
          { major := a, minor := b, patch := c, commitsAhead := n,
            preRelease :=
              (((tag.drop 1).takeWhile (fun ch => ch != '+')).dropWhile
                (fun ch => ch != '-')).drop 1,
            buildMeta :=
              (((tag.drop 1).dropWhile (fun ch => ch != '+')).drop 1).takeWhile
                (fun ch => ch != '+'),
            hasPrefix := true, dirty := d } := by
  unfold parseTag stripPrefix versionCoreText
  simp only [hv, if_true]
  rw [splitMeta_eq]
  simp only
  rw [splitPreRelease_eq]

theorem no_sign_in_core (tag : GoString) :
    '-' ∉ versionCoreText tag ∧ '+' ∉ versionCoreText tag := by
  constructor
  · exact not_mem_takeWhile '-' _
  · intro h
    exact not_mem_takeWhile '+' (tag.drop 1) (List.takeWhile_subset _ h)

theorem parseCore_spec (c : GoString) (h1 : '-' ∉ c) (h2 : '+' ∉ c) :
    parseCore c =
      if c = [] then Except.ok (0, 0, 0)
      else
        match Split c '.' with
        | [x, y, z] =>
          if isValidNonNegInt x = false then Except.error (Fatal.exit 5)
          else if isValidNonNegInt y = false then Except.error (Fatal.exit 6)
          else if isValidNonNegInt z = false then Except.error (Fatal.exit 7)
          else Except.ok (((natValue x : Nat) : Int), ((natValue y : Nat) : Int),
            ((natValue z : Nat) : Int))
        | _ => Except.error (Fatal.exit 4) := by
  unfold parseCore
  by_cases hc : c = []
  · simp [hc]
  · simp only [hc, if_false]
    have hmem := mem_of_mem_Split '.' c
    rcases hs : Split c '.' with _ | ⟨x, _ | ⟨y, _ | ⟨z, _ | ⟨w, ws⟩⟩⟩⟩
    · simp
    · simp
    · simp
    · rw [hs] at hmem
      have hx1 : '-' ∉ x := fun h => h1 (hmem x (by simp) _ h)
      have hx2 : '+' ∉ x := fun h => h2 (hmem x (by simp) _ h)
      have hy1 : '-' ∉ y := fun h => h1 (hmem y (by simp) _ h)
      have hy2 : '+' ∉ y := fun h => h2 (hmem y (by simp) _ h)
      have hz1 : '-' ∉ z := fun h => h1 (hmem z (by simp) _ h)
      have hz2 : '+' ∉ z := fun h => h2 (hmem z (by simp) _ h)
      simp only [List.length_cons, List.length_nil, ne_eq, not_true_eq_false, if_false,
        List.getElem?_cons_zero, List.getElem?_cons_succ, Atoi_unsigned x hx1 hx2,
        Atoi_unsigned y hy1 hy2, Atoi_unsigned z hz1 hz2]
      cases isValidNonNegInt x <;> cases isValidNonNegInt y <;> cases isValidNonNegInt z <;>
        simp
    · simp

theorem commitCountToken_eq (tag raw : GoString) :
    commitCountToken tag raw = (raw.drop (tag.length + 1)).takeWhile (fun ch => ch != '-') := by
  unfold commitCountToken
  have e := Split_head '-' (raw.drop (tag.length + 1))
  cases hs : Split (raw.drop (tag.length + 1)) '-' with
  | nil => exact absurd hs (Split_ne_nil _ _)
  | cons x xs =>
    rw [hs] at e
    simpa using e

theorem parseDescribe_eq (tag raw : GoString) (hlen : tag.length + 1 ≤ raw.length) :
    parseDescribe tag raw =
      if isValidNonNegInt (dropPlusSign (commitCountToken tag raw)) = true then
        Except.ok (((natValue (dropPlusSign (commitCountToken tag raw)) : Nat) : Int),
          decide ((Split (raw.drop (tag.length + 1)) '-').length > 2))
      else Except.error (Fatal.exit 3) := by
  unfold parseDescribe
  rw [if_neg (by omega)]
  simp only [Split_head]
  rw [commitCountToken_eq, Atoi_of_no_minus _ (not_mem_takeWhile '-' _)]
  by_cases hv : isValidNonNegInt (dropPlusSign
      ((raw.drop (tag.length + 1)).takeWhile (fun ch => ch != '-'))) = true
  · simp [hv]
  · simp [hv]

theorem parse_of_describe_error (tag raw : GoString) (e : Fatal)
    (h : parseDescribe tag raw = Except.error e) :
    parse tag raw false false = Except.error e := by
  unfold parse resolveInputs
  simp [h]

theorem parseDescribe_error (tag raw : GoString) (e : Fatal)
    (h : parseDescribe tag raw = Except.error e) :
    e = Fatal.exit 3 ∨ e = Fatal.panicOutOfRange := by
  unfold parseDescribe at h
  split at h
  · cases h; right; rfl
  · simp only at h
    split at h
    · cases h; right; rfl
    · split at h
      · cases h; left; rfl
      · cases h

theorem parseTag_of_not_v (tag : GoString) (d : Bool) (n : Int)
    (hv : HasPrefix tag 'v' = false) :
    parseTag tag false d n
      = Except.ok { major := 0, minor := 0, patch := 0, commitsAhead := n, preRelease := [],
                    buildMeta := [], hasPrefix := false, dirty := d } := by
  simp [parseTag, stripPrefix, hv, splitMeta, splitPreRelease, parseCore, Contains]

/-! ## The claims -/

/-- C1: for every parsed version whose major, minor, patch and commitsAhead are
non-negative and whose patch + 1 fits an `int`, `format` (the builder of lines
94-136) returns exactly the reference concatenation `formatSpec` of section 4.2:
the optional `v`, the three numbers with the patch-increment rule, the prerelease
clause and the build-metadata clause. -/
theorem format_eq_formatSpec (pv : ParsedVersion) (hmajor : 0 ≤ pv.major)
    (hminor : 0 ≤ pv.minor) (hpatch : 0 ≤ pv.patch) (hahead : 0 ≤ pv.commitsAhead)
    (hrange : pv.patch + 1 ≤ maxInt) : format pv = formatSpec pv := by
  have hw : wrapInt (pv.patch + 1) = pv.patch + 1 :=
    wrapInt_of_inRange _ (by unfold minInt; omega) hrange
  have hahead0 : pv.commitsAhead > 0 ↔ pv.commitsAhead ≠ 0 := by omega
  unfold format formatSpec bumpedPatch preReleaseClause metaClause
  rw [Itoa_of_nonneg _ hmajor, Itoa_of_nonneg _ hminor]
  by_cases hpre : pv.preRelease = []
  · by_cases hc : pv.commitsAhead = 0
    · cases hd : pv.dirty <;> by_cases hb : pv.buildMeta = [] <;>
        simp [hpre, hc, hd, hb, hw, Itoa_of_nonneg _ hpatch,
          Itoa_of_nonneg (pv.patch + 1) (by omega)]
    · have hc1 : pv.commitsAhead > 0 := by omega
      cases hd : pv.dirty <;> by_cases hb : pv.buildMeta = [] <;>
        simp [hpre, hc, hc1, hd, hb, hw, Itoa_of_nonneg _ hahead,
          Itoa_of_nonneg (pv.patch + 1) (by omega)]
  · by_cases hc : pv.commitsAhead = 0
    · cases hd : pv.dirty <;> by_cases hb : pv.buildMeta = [] <;>
        simp [hpre, hc, hd, hb, Itoa_of_nonneg _ hpatch]
    · cases hd : pv.dirty <;> by_cases hb : pv.buildMeta = [] <;>
        simp [hpre, hc, hd, hb, Itoa_of_nonneg _ hpatch, Itoa_of_nonneg _ hahead]

/-- Witness for C1: the version 1.2.3 with prefix, five commits ahead, clean. -/
theorem format_eq_formatSpec_witness :
    format { major := 1, minor := 2, patch := 3, commitsAhead := 5, preRelease := [],
             buildMeta := [], hasPrefix := true, dirty := false }
      = formatSpec { major := 1, minor := 2, patch := 3, commitsAhead := 5, preRelease := [],
                     buildMeta := [], hasPrefix := true, dirty := false } :=
  format_eq_formatSpec _ (by decide) (by decide) (by decide) (by decide) (by decide)

/-- C2: when either git lookup reported that no names were found, `parse`
ignores the two raw strings and yields prefix and dirty set, zero commits ahead,
core 0.0.0, no prerelease and no build metadata, and the program prints exactly
`v0.0.1+dirty`. -/
theorem untagged_repository (tag rawDescribe : GoString) (tagErr describeErr : Bool)
    (h : (tagErr || describeErr) = true) :
    parse tag rawDescribe tagErr describeErr
        = Except.ok { major := 0, minor := 0, patch := 0, commitsAhead := 0,
                      preRelease := [], buildMeta := [], hasPrefix := true, dirty := true } ∧
      gitversion tag rawDescribe tagErr describeErr = Except.ok "v0.0.1+dirty".toList := by
  have hp : parse tag rawDescribe tagErr describeErr
      = Except.ok { major := 0, minor := 0, patch := 0, commitsAhead := 0,
                    preRelease := [], buildMeta := [], hasPrefix := true, dirty := true } := by
    unfold parse resolveInputs
    rw [if_pos h]
    decide
  refine ⟨hp, ?_⟩
  unfold gitversion
  rw [hp]
  decide

/-- Witness for C2: the tag lookup failed, the raw strings are arbitrary text. -/
theorem untagged_repository_witness :
    parse "junk".toList "".toList true false
        = Except.ok { major := 0, minor := 0, patch := 0, commitsAhead := 0,
                      preRelease := [], buildMeta := [], hasPrefix := true, dirty := true } ∧
      gitversion "junk".toList "".toList true false = Except.ok "v0.0.1+dirty".toList :=
  untagged_repository _ _ true false (by decide)

/-- C3: for every tag `t` (also one that contains `-`), every `N` within the
`int` range and every hash `h` without `-`, the describe string `t-N-gh` sets
commitsAhead = N and dirty = false, the describe string `t-N-gh-dirty` sets
commitsAhead = N and dirty = true, and in neither case does `parse` fail with
`InvalidDescribeFormat`. -/
theorem describe_parsing (t h : GoString) (N : Nat) (hN : (N : Int) ≤ maxInt)
    (hh : '-' ∉ h) :
    parseDescribe t (t ++ "-".toList ++ decimal N ++ "-g".toList ++ h)
        = Except.ok ((N : Int), false) ∧
      parseDescribe t (t ++ "-".toList ++ decimal N ++ "-g".toList ++ h ++ "-dirty".toList)
        = Except.ok ((N : Int), true) ∧
      (∀ pv, parse t (t ++ "-".toList ++ decimal N ++ "-g".toList ++ h) false false
          = Except.ok pv → pv.commitsAhead = (N : Int) ∧ pv.dirty = false) ∧
      (∀ pv, parse t (t ++ "-".toList ++ decimal N ++ "-g".toList ++ h ++ "-dirty".toList)
          false false = Except.ok pv → pv.commitsAhead = (N : Int) ∧ pv.dirty = true) ∧
      parse t (t ++ "-".toList ++ decimal N ++ "-g".toList ++ h) false false
        ≠ Except.error InvalidDescribeFormat ∧
      parse t (t ++ "-".toList ++ decimal N ++ "-g".toList ++ h ++ "-dirty".toList) false false
        ≠ Except.error InvalidDescribeFormat := by
  have e0 : t ++ "-".toList ++ decimal N ++ "-g".toList ++ h = describeString t N h false := by
    simp [describeString]
  have e1 : t ++ "-".toList ++ decimal N ++ "-g".toList ++ h ++ "-dirty".toList
      = describeString t N h true := by
    simp [describeString]
  rw [e1, e0]
  have c := parseDescribe_describeString t h N false hN hh
  have d := parseDescribe_describeString t h N true hN hh
  refine ⟨c, d, ?_, ?_, ?_, ?_⟩
  · intro pv hpv
    rw [parse_of_describe _ _ _ _ c] at hpv
    exact parseTag_fields _ _ _ _ _ hpv
  · intro pv hpv
    rw [parse_of_describe _ _ _ _ d] at hpv
    exact parseTag_fields _ _ _ _ _ hpv
  · intro hp
    rw [parse_of_describe _ _ _ _ c] at hp
    rcases parseTag_error _ _ _ _ _ hp with hx | hx
    · exact absurd hx (by decide)
    · exact absurd hx (by decide)
  · intro hp
    rw [parse_of_describe _ _ _ _ d] at hp
    rcases parseTag_error _ _ _ _ _ hp with hx | hx
    · exact absurd hx (by decide)
    · exact absurd hx (by decide)

/-- Witness for C3: the tag `v2.0.0-beta.1`, which itself contains `-`. -/
theorem describe_parsing_witness :
    ((3 : Nat) : Int) ≤ maxInt ∧ '-' ∉ "abc".toList ∧
      parseDescribe "v2.0.0-beta.1".toList "v2.0.0-beta.1-3-gabc".toList
        = Except.ok (3, false) ∧
      parseDescribe "v2.0.0-beta.1".toList "v2.0.0-beta.1-3-gabc-dirty".toList
        = Except.ok (3, true) :=
  ⟨by decide, by decide,
    (describe_parsing "v2.0.0-beta.1".toList "abc".toList 3 (by decide) (by decide)).1,
    (describe_parsing "v2.0.0-beta.1".toList "abc".toList 3 (by decide) (by decide)).2.1⟩

/-- C4 as stated fails: the major number 9223372036854775808 does not fit an
`int`, so for the tag `v9223372036854775808.0.0`, five commits ahead and clean,
the program exits with code 5 instead of printing
`v9223372036854775808.0.1-dev.5`. -/
theorem commits_ahead_clean_counterexample :
    ((0 : Nat) : Int) + 1 ≤ maxInt ∧ 0 < 5 ∧ '-' ∉ "abc".toList ∧
      gitversion
          ("v".toList ++ decimal 9223372036854775808 ++ ".".toList ++ decimal 0 ++
            ".".toList ++ decimal 0)
          ("v".toList ++ decimal 9223372036854775808 ++ ".".toList ++ decimal 0 ++
            ".".toList ++ decimal 0 ++ "-".toList ++ decimal 5 ++ "-g".toList ++ "abc".toList)
          false false
        ≠ Except.ok ("v".toList ++ decimal 9223372036854775808 ++ ".".toList ++ decimal 0 ++
            ".".toList ++ decimal (0 + 1) ++ "-dev.".toList ++ decimal 5) ∧
      gitversion "v9223372036854775808.0.0".toList
          "v9223372036854775808.0.0-5-gabc".toList false false
        = Except.error (Fatal.exit 5) := by
  decide

/-- C4, amended: for all M, m, N within the `int` range and p with p + 1 within
it, N > 0 and every hash `h` without `-`, the tag `vM.m.p` with the describe
string `vM.m.p-N-gh` prints exactly `vM.m.(p+1)-dev.N`. -/
theorem commits_ahead_clean (M m p N : Nat) (h : GoString) (hM : (M : Int) ≤ maxInt)
    (hm : (m : Int) ≤ maxInt) (hp : (p : Int) + 1 ≤ maxInt) (hN : (N : Int) ≤ maxInt)
    (hpos : 0 < N) (hh : '-' ∉ h) :
    gitversion
        ("v".toList ++ decimal M ++ ".".toList ++ decimal m ++ ".".toList ++ decimal p)
        ("v".toList ++ decimal M ++ ".".toList ++ decimal m ++ ".".toList ++ decimal p ++
          "-".toList ++ decimal N ++ "-g".toList ++ h)
        false false
      = Except.ok ("v".toList ++ decimal M ++ ".".toList ++ decimal m ++ ".".toList ++
          decimal (p + 1) ++ "-dev.".toList ++ decimal N) := by
  have hp0 : (p : Int) ≤ maxInt := by omega
  have hd : "v".toList ++ decimal M ++ ".".toList ++ decimal m ++ ".".toList ++ decimal p ++
        "-".toList ++ decimal N ++ "-g".toList ++ h
      = describeString ("v".toList ++ decimal M ++ ".".toList ++ decimal m ++ ".".toList ++
          decimal p) N h false := by
    simp [describeString]
  rw [hd, gitversion_semver M m p N [] [] h false hM hm hp0 hN (by simp) (by simp) hh _
    (by simp)]
  have hN0 : (N : Int) ≠ 0 := by omega
  have hN1 : (0 : Int) < N := by omega
  simp [format, bumpedPatch, preReleaseClause, metaClause, Itoa_natCast, hN0, hN1,
    wrapInt_succ_natCast p hp, Itoa_natCast_succ]

/-- Witness for C4 (amended): tag `v1.2.3`, five commits ahead, gives
`v1.2.4-dev.5`. -/
theorem commits_ahead_clean_witness :
    ((1 : Nat) : Int) ≤ maxInt ∧ ((2 : Nat) : Int) ≤ maxInt ∧ ((3 : Nat) : Int) + 1 ≤ maxInt ∧
      ((5 : Nat) : Int) ≤ maxInt ∧ 0 < 5 ∧ '-' ∉ "abc".toList ∧
      gitversion "v1.2.3".toList "v1.2.3-5-gabc".toList false false
        = Except.ok "v1.2.4-dev.5".toList :=
  ⟨by decide, by decide, by decide, by decide, by decide, by decide,
    commits_ahead_clean 1 2 3 5 "abc".toList (by decide) (by decide) (by decide) (by decide)
      (by decide) (by decide)⟩

/-- C5 as stated fails: the major number 9223372036854775808 does not fit an
`int`, so for the tag `v9223372036854775808.0.0` on a dirty tree with zero
commits ahead the program exits with code 5 instead of printing
`v9223372036854775808.0.1+dirty`. -/
theorem dirty_zero_ahead_counterexample :
    ((0 : Nat) : Int) + 1 ≤ maxInt ∧ '-' ∉ "abc".toList ∧
      gitversion
          ("v".toList ++ decimal 9223372036854775808 ++ ".".toList ++ decimal 0 ++
            ".".toList ++ decimal 0)
          ("v".toList ++ decimal 9223372036854775808 ++ ".".toList ++ decimal 0 ++
            ".".toList ++ decimal 0 ++ "-0-g".toList ++ "abc".toList ++ "-dirty".toList)
          false false
        ≠ Except.ok ("v".toList ++ decimal 9223372036854775808 ++ ".".toList ++ decimal 0 ++
            ".".toList ++ decimal (0 + 1) ++ "+dirty".toList) ∧
      gitversion "v9223372036854775808.0.0".toList
          "v9223372036854775808.0.0-0-gabc-dirty".toList false false
        = Except.error (Fatal.exit 5) := by
  decide

/-- C5, amended: for all M, m within the `int` range and p with p + 1 within it,
and every hash `h` without `-`, the tag `vM.m.p` with the describe string
`vM.m.p-0-gh-dirty` prints exactly `vM.m.(p+1)+dirty`: the patch is incremented
on dirty alone, there is no prerelease clause and the build clause is `+dirty`. -/
theorem dirty_zero_ahead (M m p : Nat) (h : GoString) (hM : (M : Int) ≤ maxInt)
    (hm : (m : Int) ≤ maxInt) (hp : (p : Int) + 1 ≤ maxInt) (hh : '-' ∉ h) :
    gitversion
        ("v".toList ++ decimal M ++ ".".toList ++ decimal m ++ ".".toList ++ decimal p)
        ("v".toList ++ decimal M ++ ".".toList ++ decimal m ++ ".".toList ++ decimal p ++
          "-0-g".toList ++ h ++ "-dirty".toList)
        false false
      = Except.ok ("v".toList ++ decimal M ++ ".".toList ++ decimal m ++ ".".toList ++
          decimal (p + 1) ++ "+dirty".toList) := by
  have hp0 : (p : Int) ≤ maxInt := by omega
  have hd : "v".toList ++ decimal M ++ ".".toList ++ decimal m ++ ".".toList ++ decimal p ++
        "-0-g".toList ++ h ++ "-dirty".toList
      = describeString ("v".toList ++ decimal M ++ ".".toList ++ decimal m ++ ".".toList ++
          decimal p) 0 h true := by
    simp [describeString, decimal_zero]
  rw [hd, gitversion_semver M m p 0 [] [] h true hM hm hp0 (by decide) (by simp) (by simp) hh _
    (by simp)]
  simp [format, bumpedPatch, preReleaseClause, metaClause, Itoa_natCast,
    wrapInt_succ_natCast p hp, Itoa_natCast_succ]

/-- Witness for C5 (amended): tag `v1.2.3` on a dirty tree gives `v1.2.4+dirty`. -/
theorem dirty_zero_ahead_witness :
    ((1 : Nat) : Int) ≤ maxInt ∧ ((2 : Nat) : Int) ≤ maxInt ∧ ((3 : Nat) : Int) + 1 ≤ maxInt ∧
      '-' ∉ "abc".toList ∧
      gitversion "v1.2.3".toList "v1.2.3-0-gabc-dirty".toList false false
        = Except.ok "v1.2.4+dirty".toList :=
  ⟨by decide, by decide, by decide, by decide,
    dirty_zero_ahead 1 2 3 "abc".toList (by decide) (by decide) (by decide) (by decide)⟩

/-- C6 as stated fails: the major number 9223372036854775808 does not fit an
`int`, so for the tag `v9223372036854775808.0.0-beta.1`, three commits ahead,
the program exits with code 5 instead of printing the tag followed by `.3`. -/
theorem prerelease_ahead_counterexample :
    "beta.1".toList ≠ [] ∧ '+' ∉ "beta.1".toList ∧ 0 < 3 ∧ '-' ∉ "abc".toList ∧
      gitversion
          ("v".toList ++ decimal 9223372036854775808 ++ ".".toList ++ decimal 0 ++
            ".".toList ++ decimal 0 ++ "-".toList ++ "beta.1".toList)
          ("v".toList ++ decimal 9223372036854775808 ++ ".".toList ++ decimal 0 ++
            ".".toList ++ decimal 0 ++ "-".toList ++ "beta.1".toList ++ "-".toList ++
            decimal 3 ++ "-g".toList ++ "abc".toList)
          false false
        ≠ Except.ok ("v".toList ++ decimal 9223372036854775808 ++ ".".toList ++ decimal 0 ++
            ".".toList ++ decimal 0 ++ "-".toList ++ "beta.1".toList ++ ".".toList ++
            decimal 3) ∧
      gitversion "v9223372036854775808.0.0-beta.1".toList
          "v9223372036854775808.0.0-beta.1-3-gabc".toList false false
        = Except.error (Fatal.exit 5) := by
  decide

/-- C6, amended: for all M, m, p and N within the `int` range, N > 0, every
non-empty prerelease `pre` without `+` and every hash `h` without `-`, the tag
`vM.m.p-pre` with the describe string `vM.m.p-pre-N-gh` prints exactly the tag
followed by `.N`; the patch is not incremented. -/
theorem prerelease_ahead (M m p N : Nat) (pre h : GoString) (hM : (M : Int) ≤ maxInt)
    (hm : (m : Int) ≤ maxInt) (hp : (p : Int) ≤ maxInt) (hN : (N : Int) ≤ maxInt)
    (hne : pre ≠ []) (hpre : '+' ∉ pre) (hpos : 0 < N) (hh : '-' ∉ h) :
    gitversion
        ("v".toList ++ decimal M ++ ".".toList ++ decimal m ++ ".".toList ++ decimal p ++
          "-".toList ++ pre)
        ("v".toList ++ decimal M ++ ".".toList ++ decimal m ++ ".".toList ++ decimal p ++
          "-".toList ++ pre ++ "-".toList ++ decimal N ++ "-g".toList ++ h)
        false false
      = Except.ok ("v".toList ++ decimal M ++ ".".toList ++ decimal m ++ ".".toList ++
          decimal p ++ "-".toList ++ pre ++ ".".toList ++ decimal N) := by
  have hd : "v".toList ++ decimal M ++ ".".toList ++ decimal m ++ ".".toList ++ decimal p ++
        "-".toList ++ pre ++ "-".toList ++ decimal N ++ "-g".toList ++ h
      = describeString ("v".toList ++ decimal M ++ ".".toList ++ decimal m ++ ".".toList ++
          decimal p ++ "-".toList ++ pre) N h false := by
    simp [describeString]
  rw [hd, gitversion_semver M m p N pre [] h false hM hm hp hN hpre (by simp) hh _
    (by simp [hne])]
  have hN0 : (N : Int) ≠ 0 := by omega
  simp [format, bumpedPatch, preReleaseClause, metaClause, Itoa_natCast, hN0, hne]

/-- Witness for C6 (amended): tag `v2.0.0-beta.1`, three commits ahead, gives
`v2.0.0-beta.1.3`. -/
theorem prerelease_ahead_witness :
    ((2 : Nat) : Int) ≤ maxInt ∧ ((0 : Nat) : Int) ≤ maxInt ∧ ((3 : Nat) : Int) ≤ maxInt ∧
      "beta.1".toList ≠ [] ∧ '+' ∉ "beta.1".toList ∧ 0 < 3 ∧ '-' ∉ "abc".toList ∧
      gitversion "v2.0.0-beta.1".toList "v2.0.0-beta.1-3-gabc".toList false false
        = Except.ok "v2.0.0-beta.1.3".toList :=
  ⟨by decide, by decide, by decide, by decide, by decide, by decide, by decide,
    prerelease_ahead 2 0 0 3 "beta.1".toList "abc".toList (by decide) (by decide) (by decide)
      (by decide) (by decide) (by decide) (by decide) (by decide)⟩

/-- C7: for M, m, p within the `int` range (written by `decimal`, hence without
leading zeros), an optional `-pre` (`pre` without `+`; empty stands for absent)
and an optional `+meta` (`meta` without `+`; empty stands for absent), and a
hash `h` without `-`, the tag `vM.m.p[-pre][+meta]` with the describe string
`<tag>-0-g<h>` is printed unchanged. -/
theorem exact_tag_identity (M m p : Nat) (pre bm h : GoString) (hM : (M : Int) ≤ maxInt)
    (hm : (m : Int) ≤ maxInt) (hp : (p : Int) ≤ maxInt) (hpre : '+' ∉ pre) (hbm : '+' ∉ bm)
    (hh : '-' ∉ h) :
    gitversion
        ("v".toList ++ decimal M ++ ".".toList ++ decimal m ++ ".".toList ++ decimal p ++
          (if pre = [] then [] else "-".toList ++ pre) ++
          (if bm = [] then [] else "+".toList ++ bm))
        ("v".toList ++ decimal M ++ ".".toList ++ decimal m ++ ".".toList ++ decimal p ++
          (if pre = [] then [] else "-".toList ++ pre) ++
          (if bm = [] then [] else "+".toList ++ bm) ++ "-0-g".toList ++ h)
        false false
      = Except.ok ("v".toList ++ decimal M ++ ".".toList ++ decimal m ++ ".".toList ++
          decimal p ++ (if pre = [] then [] else "-".toList ++ pre) ++
          (if bm = [] then [] else "+".toList ++ bm)) := by
  have hd : "v".toList ++ decimal M ++ ".".toList ++ decimal m ++ ".".toList ++ decimal p ++
        (if pre = [] then [] else "-".toList ++ pre) ++
        (if bm = [] then [] else "+".toList ++ bm) ++ "-0-g".toList ++ h
      = describeString ("v".toList ++ decimal M ++ ".".toList ++ decimal m ++ ".".toList ++
          decimal p ++ (if pre = [] then [] else "-".toList ++ pre) ++
          (if bm = [] then [] else "+".toList ++ bm)) 0 h false := by
    simp [describeString, decimal_zero]
  rw [hd, gitversion_semver M m p 0 pre bm h false hM hm hp (by decide) hpre hbm hh _
    (by by_cases h1 : pre = [] <;> by_cases h2 : bm = [] <;> simp [h1, h2])]
  by_cases h1 : pre = [] <;> by_cases h2 : bm = [] <;>
    simp [format, bumpedPatch, preReleaseClause, metaClause, Itoa_natCast, h1, h2]

/-- Witness for C7: `v1.0.0+build77` is printed as `v1.0.0+build77`, and
`v1.2.3` as `v1.2.3`. -/
theorem exact_tag_identity_witness :
    ((1 : Nat) : Int) ≤ maxInt ∧ ((0 : Nat) : Int) ≤ maxInt ∧ ((2 : Nat) : Int) ≤ maxInt ∧
      ((3 : Nat) : Int) ≤ maxInt ∧ '+' ∉ "".toList ∧ '+' ∉ "build77".toList ∧
      '-' ∉ "abc".toList ∧
      gitversion "v1.0.0+build77".toList "v1.0.0+build77-0-gabc".toList false false
        = Except.ok "v1.0.0+build77".toList ∧
      gitversion "v1.2.3".toList "v1.2.3-0-gabc".toList false false
        = Except.ok "v1.2.3".toList :=
  ⟨by decide, by decide, by decide, by decide, by decide, by decide, by decide,
    exact_tag_identity 1 0 0 "".toList "build77".toList "abc".toList (by decide) (by decide)
      (by decide) (by decide) (by decide) (by decide),
    exact_tag_identity 1 2 3 "".toList "".toList "abc".toList (by decide) (by decide)
      (by decide) (by decide) (by decide) (by decide)⟩

/-- C8 as stated fails: the tag `v9223372036854775808.0.0` begins with `v`, its
describe string parses, and its version text splits on `.` into exactly three
tokens, each a non-empty string of decimal digits; yet `parse` fails with
`MalformedVersionCore` (exit code 5), because the first token does not fit an
`int`. -/
theorem malformed_core_iff_counterexample :
    HasPrefix "v9223372036854775808.0.0".toList 'v' = true ∧
      parseDescribe "v9223372036854775808.0.0".toList
          "v9223372036854775808.0.0-0-gabc".toList = Except.ok (0, false) ∧
      versionCoreText "v9223372036854775808.0.0".toList ≠ [] ∧
      Split (versionCoreText "v9223372036854775808.0.0".toList) '.'
        = ["9223372036854775808".toList, "0".toList, "0".toList] ∧
      (∀ t ∈ Split (versionCoreText "v9223372036854775808.0.0".toList) '.',
        isDigitString t = true) ∧
      parse "v9223372036854775808.0.0".toList "v9223372036854775808.0.0-0-gabc".toList
          false false = Except.error (Fatal.exit 5) ∧
      isMalformedVersionCore (Fatal.exit 5) = true := by
  decide

/-- C8, amended: for every tag that begins with `v` and whose describe string
parsed successfully, with `c` the version text (the tag without `v`, cut before
the first `+` and then before the first `-`): `parse` fails with
`MalformedVersionCore` if and only if `c` is non-empty and either `c` split on
`.` does not give exactly three tokens or one of the tokens is not a valid
non-negative integer within the `int` range (decimal digits whose value fits an
`int`); otherwise `parse` succeeds with major, minor, patch equal to the three
tokens' values, or 0, 0, 0 when `c` is empty. -/
theorem malformed_core_iff (tag rawDescribe : GoString) (n : Int) (d : Bool)
    (hv : HasPrefix tag 'v' = true) (hd : parseDescribe tag rawDescribe = Except.ok (n, d)) :
    ((∃ e, parse tag rawDescribe false false = Except.error e ∧
          isMalformedVersionCore e = true) ↔
        (versionCoreText tag ≠ [] ∧
          ((Split (versionCoreText tag) '.').length ≠ 3 ∨
            ∃ t ∈ Split (versionCoreText tag) '.', isValidNonNegInt t = false))) ∧
      (¬ (versionCoreText tag ≠ [] ∧
            ((Split (versionCoreText tag) '.').length ≠ 3 ∨
              ∃ t ∈ Split (versionCoreText tag) '.', isValidNonNegInt t = false)) →
        ∃ pv, parse tag rawDescribe false false = Except.ok pv ∧
          [pv.major, pv.minor, pv.patch]
            = if versionCoreText tag = [] then ([0, 0, 0] : List Int)
              else (Split (versionCoreText tag) '.').map
                (fun t => ((natValue t : Nat) : Int))) := by
  rw [parse_of_describe _ _ _ _ hd, parseTag_of_v _ _ _ _ hv,
    parseCore_spec _ (no_sign_in_core tag).1 (no_sign_in_core tag).2]
  generalize versionCoreText tag = c
  by_cases hc : c = []
  · subst hc
    simp
  · simp only [hc, if_false]
    rcases hs : Split c '.' with _ | ⟨x, _ | ⟨y, _ | ⟨z, _ | ⟨w, ws⟩⟩⟩⟩
    · simp [isMalformedVersionCore, hc]
    · simp [isMalformedVersionCore, hc]
    · simp [isMalformedVersionCore, hc]
    · cases hx : isValidNonNegInt x <;> cases hy : isValidNonNegInt y <;>
        cases hz : isValidNonNegInt z <;> simp [isMalformedVersionCore, hc, hx, hy, hz]
    · simp [isMalformedVersionCore, hc]

/-- Witness for C8 (amended): the tag `v1.2` has a two-token core and fails with
`MalformedVersionCore`. -/
theorem malformed_core_iff_witness :
    HasPrefix "v1.2".toList 'v' = true ∧
      parseDescribe "v1.2".toList "v1.2-0-gabc".toList = Except.ok (0, false) ∧
      ∃ e, parse "v1.2".toList "v1.2-0-gabc".toList false false = Except.error e ∧
        isMalformedVersionCore e = true :=
  ⟨by decide, by decide,
    (malformed_core_iff "v1.2".toList "v1.2-0-gabc".toList 0 false (by decide)
      (by decide)).1.mpr (by decide)⟩

/-- C9 as stated fails: `strconv.Atoi` accepts a leading `+`.  For the tag
`v1.0.0` and the describe string `v1.0.0-+5-gabc` the commit-count token is
`+5`, which is not a string of decimal digits, and yet `parse` does not fail
with `InvalidDescribeFormat`: the program prints `v1.0.1-dev.5`. -/
theorem invalid_describe_iff_counterexample :
    "v1.0.0".toList.length + 1 ≤ "v1.0.0-+5-gabc".toList.length ∧
      commitCountToken "v1.0.0".toList "v1.0.0-+5-gabc".toList = "+5".toList ∧
      isValidNonNegInt (commitCountToken "v1.0.0".toList "v1.0.0-+5-gabc".toList) = false ∧
      parse "v1.0.0".toList "v1.0.0-+5-gabc".toList false false
        ≠ Except.error InvalidDescribeFormat ∧
      gitversion "v1.0.0".toList "v1.0.0-+5-gabc".toList false false
        = Except.ok "v1.0.1-dev.5".toList := by
  decide

/-- C9, amended: for every tag and describe string of a tagged repository with
the describe string at least one byte longer than the tag, and `k` the first
token of the describe string after its first `len(tag) + 1` bytes: `parse` fails
with `InvalidDescribeFormat` if and only if `k`, without one leading `+` if it
has one, is not a valid non-negative integer; in that case the describe stage
itself fails, before the tag is looked at, and no version string is produced. -/
theorem invalid_describe_iff (tag rawDescribe : GoString)
    (hlen : tag.length + 1 ≤ rawDescribe.length) :
    (parse tag rawDescribe false false = Except.error InvalidDescribeFormat ↔
        isValidNonNegInt (dropPlusSign (commitCountToken tag rawDescribe)) = false) ∧
      (isValidNonNegInt (dropPlusSign (commitCountToken tag rawDescribe)) = false →
        parseDescribe tag rawDescribe = Except.error InvalidDescribeFormat ∧
          gitversion tag rawDescribe false false = Except.error InvalidDescribeFormat) := by
  have hpd := parseDescribe_eq tag rawDescribe hlen
  cases hval : isValidNonNegInt (dropPlusSign (commitCountToken tag rawDescribe)) with
  | false =>
    rw [hval] at hpd
    simp only [Bool.false_eq_true, if_false] at hpd
    have hp := parse_of_describe_error _ _ _ hpd
    refine ⟨⟨fun _ => rfl, fun _ => hp⟩, fun _ => ⟨hpd, ?_⟩⟩
    unfold gitversion
    rw [hp]
    rfl
  | true =>
    rw [hval] at hpd
    simp only [if_true] at hpd
    refine ⟨⟨fun hp => ?_, fun hf => absurd hf (by decide)⟩, fun hf => absurd hf (by decide)⟩
    rw [parse_of_describe _ _ _ _ hpd] at hp
    rcases parseTag_error _ _ _ _ _ hp with hx | hx
    · exact absurd hx (by decide)
    · exact absurd hx (by decide)

/-- Witness for C9 (amended): the describe string `v1.2.3-abc-gdef` has the
commit-count token `abc`; no version is printed. -/
theorem invalid_describe_iff_witness :
    "v1.2.3".toList.length + 1 ≤ "v1.2.3-abc-gdef".toList.length ∧
      parse "v1.2.3".toList "v1.2.3-abc-gdef".toList false false
        = Except.error InvalidDescribeFormat ∧
      gitversion "v1.2.3".toList "v1.2.3-abc-gdef".toList false false
        = Except.error InvalidDescribeFormat :=
  ⟨by decide,
    (invalid_describe_iff "v1.2.3".toList "v1.2.3-abc-gdef".toList (by decide)).1.mpr
      (by decide),
    ((invalid_describe_iff "v1.2.3".toList "v1.2.3-abc-gdef".toList (by decide)).2
      (by decide)).2⟩

/-- C10: for every tag that does not begin with `v`, `parse` never fails with
`MalformedVersionCore`, and whenever the describe string parses (to `n` commits
ahead and dirty flag `d`) `parse` succeeds with prefix unset, core 0.0.0, no
prerelease and no build metadata; the output is therefore a function of `n` and
`d` alone: `0.0.0` for a clean tree at the tag and `0.0.1-dev.n` for a clean
tree `n > 0` commits ahead. -/
theorem unprefixed_tag (tag rawDescribe : GoString) (hv : HasPrefix tag 'v' = false) :
    (∀ e, parse tag rawDescribe false false = Except.error e →
        isMalformedVersionCore e = false) ∧
      (∀ n d, parseDescribe tag rawDescribe = Except.ok (n, d) →
        parse tag rawDescribe false false
            = Except.ok { major := 0, minor := 0, patch := 0, commitsAhead := n,
                          preRelease := [], buildMeta := [], hasPrefix := false,
                          dirty := d } ∧
          gitversion tag rawDescribe false false
            = Except.ok (format { major := 0, minor := 0, patch := 0, commitsAhead := n,
                                  preRelease := [], buildMeta := [], hasPrefix := false,
                                  dirty := d }) ∧
          (n = 0 → d = false →
            gitversion tag rawDescribe false false = Except.ok "0.0.0".toList) ∧
          (0 < n → d = false →
            gitversion tag rawDescribe false false
              = Except.ok ("0.0.1-dev.".toList ++ Itoa n))) := by
  have hok : ∀ n d, parseDescribe tag rawDescribe = Except.ok (n, d) →
      parse tag rawDescribe false false
        = Except.ok { major := 0, minor := 0, patch := 0, commitsAhead := n,
                      preRelease := [], buildMeta := [], hasPrefix := false, dirty := d } := by
    intro n d hd
    rw [parse_of_describe _ _ _ _ hd, parseTag_of_not_v tag d n hv]
  constructor
  · intro e he
    cases hd : parseDescribe tag rawDescribe with
    | error e2 =>
      rw [parse_of_describe_error _ _ _ hd] at he
      cases he
      rcases parseDescribe_error _ _ _ hd with hx | hx <;> subst hx <;> rfl
    | ok r =>
      rw [hok r.1 r.2 hd] at he
      cases he
  · intro n d hd
    have hg : gitversion tag rawDescribe false false
        = Except.ok (format { major := 0, minor := 0, patch := 0, commitsAhead := n,
                              preRelease := [], buildMeta := [], hasPrefix := false,
                              dirty := d }) := by
      unfold gitversion
      rw [hok n d hd]
    refine ⟨hok n d hd, hg, ?_, ?_⟩
    · intro hn hdf
      rw [hg, hn, hdf]
      decide
    · intro hn hdf
      have hn0 : n ≠ 0 := by omega
      have h1 : Itoa (wrapInt 1) = ['1'] := by decide
      rw [hg, hdf]
      simp [format, bumpedPatch, preReleaseClause, metaClause, hn, hn0, h1,
        show Itoa 0 = ['0'] from rfl]

/-- Witness for C10: the tag `1.2.3` prints `0.0.0` at the tag and `0.0.1-dev.4`
four commits ahead. -/
theorem unprefixed_tag_witness :
    HasPrefix "1.2.3".toList 'v' = false ∧
      gitversion "1.2.3".toList "1.2.3-0-gabc".toList false false
        = Except.ok "0.0.0".toList ∧
      HasPrefix "1.2.3".toList 'v' = false ∧
      gitversion "1.2.3".toList "1.2.3-4-gabc".toList false false
        = Except.ok "0.0.1-dev.4".toList :=
  ⟨by decide,
    ((unprefixed_tag "1.2.3".toList "1.2.3-0-gabc".toList (by decide)).2 0 false
      (by decide)).2.2.1 rfl rfl,
    by decide,
    ((unprefixed_tag "1.2.3".toList "1.2.3-4-gabc".toList (by decide)).2 4 false
      (by decide)).2.2.2 (by decide) rfl⟩

/-! ## More facts about the stages of `main` -/

theorem parse_of_v (tag raw : GoString) (n : Int) (d : Bool)
    (hv : HasPrefix tag 'v' = true) (hd : parseDescribe tag raw = Except.ok (n, d)) :
    parse tag raw false false =
      match parseCore (versionCoreText tag) with
      | Except.error e => Except.error e
      | Except.ok (a, b, c) =>
        Except.ok
          { major := a, minor := b, patch := c, commitsAhead := n,
            preRelease := preReleaseText tag,
            buildMeta := (textAfterFirstPlus tag).takeWhile (fun ch => ch != '+'),
            hasPrefix := true, dirty := d } := by
  rw [parse_of_describe _ _ _ _ hd, parseTag_of_v _ _ _ _ hv]
  rfl

theorem takeWhile_append_sep (sep : Char) (a b : GoString) (h : sep ∉ a) :
    (a ++ sep :: b).takeWhile (fun ch => ch != sep) = a := by
  induction a with
  | nil => simp [List.takeWhile_cons]
  | cons c cs ih =>
    have hc : c ≠ sep := fun e => h (by simp [e])
    have hcs : sep ∉ cs := fun e => h (List.mem_cons_of_mem _ e)
    simp [List.takeWhile_cons, hc, ih hcs]

theorem dropWhile_append_sep (sep : Char) (a b : GoString) (h : sep ∉ a) :
    (a ++ sep :: b).dropWhile (fun ch => ch != sep) = sep :: b := by
  induction a with
  | nil => simp [List.dropWhile_cons]
  | cons c cs ih =>
    have hc : c ≠ sep := fun e => h (by simp [e])
    have hcs : sep ∉ cs := fun e => h (List.mem_cons_of_mem _ e)
    simp [List.dropWhile_cons, hc, ih hcs]

/-! ## The claims, continued -/

/-- C11, the code at the failing input: the tag `v1.0.0+a+b` begins with `v`
and its version text contains `+`; the entire text after the first `+` is
`a+b`, but `strings.Split` cuts at every `+` and line 56 keeps only element 1,
so buildMeta is `a` and the program prints `v1.0.0+a`. -/
theorem build_meta_second_plus :
    HasPrefix "v1.0.0+a+b".toList 'v' = true ∧
      Contains ("v1.0.0+a+b".toList.drop 1) '+' = true ∧
      textAfterFirstPlus "v1.0.0+a+b".toList = "a+b".toList ∧
      versionFront "v1.0.0+a+b".toList = "1.0.0".toList ∧
      parse "v1.0.0+a+b".toList "v1.0.0+a+b-0-gabc".toList false false
        = Except.ok { major := 1, minor := 0, patch := 0, commitsAhead := 0,
                      preRelease := [], buildMeta := "a".toList, hasPrefix := true,
                      dirty := false } ∧
      gitversion "v1.0.0+a+b".toList "v1.0.0+a+b-0-gabc".toList false false
        = Except.ok "v1.0.0+a".toList := by
  decide

/-- C12: for every tag that begins with `v` (with a describe string that
parses), the prerelease stage cuts the version text left by the build-metadata
split once, at its first `-`: the prerelease is the entire text after that `-`,
further `-` included, and it is empty when that text has no `-`, also when the
build metadata has one. -/
theorem prerelease_extraction (tag rawDescribe : GoString) (n : Int) (d : Bool)
    (hv : HasPrefix tag 'v' = true) (hd : parseDescribe tag rawDescribe = Except.ok (n, d)) :
    splitPreRelease (versionFront tag)
        = Except.ok (versionCoreText tag, preReleaseText tag) ∧
      (∀ pv, parse tag rawDescribe false false = Except.ok pv →
        pv.preRelease = preReleaseText tag) ∧
      (∀ a b, '-' ∉ a → '+' ∉ a → '+' ∉ b → tag = 'v' :: (a ++ '-' :: b) →
        preReleaseText tag = b) ∧
      (∀ a b y, '-' ∉ a → '+' ∉ a → '+' ∉ b → tag = 'v' :: (a ++ '-' :: b ++ '+' :: y) →
        preReleaseText tag = b) ∧
      (∀ x y, '-' ∉ x → '+' ∉ x → tag = 'v' :: (x ++ '+' :: y) → preReleaseText tag = []) := by
  refine ⟨?_, ?_, ?_, ?_, ?_⟩
  · exact splitPreRelease_eq (versionFront tag)
  · intro pv hpv
    rw [parse_of_v tag rawDescribe n d hv hd] at hpv
    split at hpv
    · cases hpv
    · cases hpv
      rfl
  · intro a b ha1 ha2 hb ht
    subst ht
    have hab : '+' ∉ a ++ '-' :: b := by simp [ha2, hb]
    simp only [preReleaseText, versionFront, List.drop_succ_cons, List.drop_zero]
    rw [takeWhile_of_not_mem '+' _ hab, dropWhile_append_sep '-' a b ha1]
    rfl
  · intro a b y ha1 ha2 hb ht
    subst ht
    have hab : '+' ∉ a ++ '-' :: b := by simp [ha2, hb]
    simp only [preReleaseText, versionFront, List.drop_succ_cons, List.drop_zero]
    have e : a ++ '-' :: b ++ '+' :: y = (a ++ '-' :: b) ++ '+' :: y := by simp
    rw [e, takeWhile_append_sep '+' _ y hab, dropWhile_append_sep '-' a b ha1]
    rfl
  · intro x y hx1 hx2 ht
    subst ht
    simp only [preReleaseText, versionFront, List.drop_succ_cons, List.drop_zero]
    rw [takeWhile_append_sep '+' x y hx2, dropWhile_of_not_mem '-' x hx1]
    rfl

/-- Witness for C12: `v1.0.0+build-1` has no prerelease and build metadata
`build-1`; `v1.0.0-rc-1+x` has the prerelease `rc-1`. -/
theorem prerelease_extraction_witness :
    HasPrefix "v1.0.0+build-1".toList 'v' = true ∧
      parseDescribe "v1.0.0+build-1".toList "v1.0.0+build-1-0-gabc".toList
        = Except.ok (0, false) ∧
      parse "v1.0.0+build-1".toList "v1.0.0+build-1-0-gabc".toList false false
        = Except.ok { major := 1, minor := 0, patch := 0, commitsAhead := 0,
                      preRelease := [], buildMeta := "build-1".toList, hasPrefix := true,
                      dirty := false } ∧
      preReleaseText "v1.0.0+build-1".toList = [] ∧
      HasPrefix "v1.0.0-rc-1+x".toList 'v' = true ∧
      parseDescribe "v1.0.0-rc-1+x".toList "v1.0.0-rc-1+x-0-gabc".toList
        = Except.ok (0, false) ∧
      preReleaseText "v1.0.0-rc-1+x".toList = "rc-1".toList :=
  ⟨by decide, by decide, by decide,
    (prerelease_extraction "v1.0.0+build-1".toList "v1.0.0+build-1-0-gabc".toList 0 false
      (by decide) (by decide)).2.2.2.2 "1.0.0".toList "build-1".toList (by decide) (by decide)
      rfl,
    by decide, by decide,
    (prerelease_extraction "v1.0.0-rc-1+x".toList "v1.0.0-rc-1+x-0-gabc".toList 0 false
      (by decide) (by decide)).2.2.2.1 "1.0.0".toList "rc-1".toList "x".toList (by decide)
      (by decide) (by decide) rfl⟩

theorem parse_fallback (tag raw : GoString) (tagErr describeErr : Bool)
    (h : (tagErr || describeErr) = true) :
    parse tag raw tagErr describeErr
      = Except.ok { major := 0, minor := 0, patch := 0, commitsAhead := 0,
                    preRelease := [], buildMeta := [], hasPrefix := true, dirty := true } := by
  unfold parse resolveInputs
  rw [if_pos h]
  decide

theorem parse_ok_cases (tag raw : GoString) (pv : ParsedVersion)
    (h : parse tag raw false false = Except.ok pv) :
    ∃ n d, parseDescribe tag raw = Except.ok (n, d) ∧ parseTag tag false d n = Except.ok pv := by
  cases hd : parseDescribe tag raw with
  | error e =>
    rw [parse_of_describe_error _ _ _ hd] at h
    cases h
  | ok r =>
    obtain ⟨n, d⟩ := r
    rw [parse_of_describe _ _ _ _ hd] at h
    exact ⟨n, d, rfl, h⟩

theorem parseDescribe_ok_nonneg (tag raw : GoString) (n : Int) (d : Bool)
    (h : parseDescribe tag raw = Except.ok (n, d)) : 0 ≤ n := by
  by_cases hlen : tag.length + 1 ≤ raw.length
  · rw [parseDescribe_eq tag raw hlen] at h
    split at h
    · cases h
      exact Int.natCast_nonneg _
    · cases h
  · unfold parseDescribe at h
    rw [if_pos (by omega)] at h
    cases h

theorem parseCore_error_malformed (v : GoString) (e : Fatal)
    (h : parseCore v = Except.error e) : isMalformedVersionCore e = true := by
  unfold parseCore at h
  split at h
  · cases h
  · simp only at h
    rcases hs : Split v '.' with _ | ⟨x, _ | ⟨y, _ | ⟨z, _ | ⟨w, ws⟩⟩⟩⟩
    · rw [hs] at h; simp at h; cases h; rfl
    · rw [hs] at h; simp at h; cases h; rfl
    · rw [hs] at h; simp at h; cases h; rfl
    · rw [hs] at h
      simp only [List.length_cons, List.length_nil, ne_eq, not_true_eq_false, if_false,
        List.getElem?_cons_zero, List.getElem?_cons_succ] at h
      split at h
      · cases h; rfl
      · split at h
        · cases h; rfl
        · split at h
          · cases h; rfl
          · cases h
    · rw [hs] at h; simp at h; cases h; rfl

theorem parseTag_error_malformed (tag : GoString) (p0 d : Bool) (n : Int) (e : Fatal)
    (h : parseTag tag p0 d n = Except.error e) : isMalformedVersionCore e = true := by
  unfold parseTag at h
  simp only at h
  rw [splitMeta_eq] at h
  simp only at h
  rw [splitPreRelease_eq] at h
  simp only at h
  split at h
  · cases h
    exact parseCore_error_malformed _ _ (by assumption)
  · cases h

theorem parseCore_ok_nonneg (c : GoString) (h1 : '-' ∉ c) (h2 : '+' ∉ c) (x y z : Int)
    (h : parseCore c = Except.ok (x, y, z)) : 0 ≤ x ∧ 0 ≤ y ∧ 0 ≤ z := by
  rw [parseCore_spec c h1 h2] at h
  split at h
  · cases h
    exact ⟨le_refl _, le_refl _, le_refl _⟩
  · split at h
    · split at h
      · cases h
      · split at h
        · cases h
        · split at h
          · cases h
          · cases h
            exact ⟨Int.natCast_nonneg _, Int.natCast_nonneg _, Int.natCast_nonneg _⟩
    · cases h

theorem parseTag_ok_nonneg (tag : GoString) (d : Bool) (n : Int) (pv : ParsedVersion)
    (h : parseTag tag false d n = Except.ok pv) :
    0 ≤ pv.major ∧ 0 ≤ pv.minor ∧ 0 ≤ pv.patch := by
  cases hv : HasPrefix tag 'v' with
  | false =>
    rw [parseTag_of_not_v tag d n hv] at h
    cases h
    exact ⟨le_refl _, le_refl _, le_refl _⟩
  | true =>
    rw [parseTag_of_v tag false d n hv] at h
    cases hc : parseCore (versionCoreText tag) with
    | error e =>
      rw [hc] at h
      cases h
    | ok r =>
      obtain ⟨x, y, z⟩ := r
      rw [hc] at h
      cases h
      exact parseCore_ok_nonneg _ (no_sign_in_core tag).1 (no_sign_in_core tag).2 x y z hc

theorem plus_not_mem_preReleaseText (tag : GoString) : '+' ∉ preReleaseText tag := by
  intro h
  have h1 := List.mem_of_mem_drop h
  have h2 := List.dropWhile_subset _ h1
  exact not_mem_takeWhile '+' _ h2

theorem parseTag_ok_no_plus (tag : GoString) (d : Bool) (n : Int) (pv : ParsedVersion)
    (h : parseTag tag false d n = Except.ok pv) :
    '+' ∉ pv.preRelease ∧ '+' ∉ pv.buildMeta := by
  cases hv : HasPrefix tag 'v' with
  | false =>
    rw [parseTag_of_not_v tag d n hv] at h
    cases h
    simp
  | true =>
    rw [parseTag_of_v tag false d n hv] at h
    split at h
    · cases h
    · cases h
      exact ⟨plus_not_mem_preReleaseText tag, not_mem_takeWhile '+' _⟩

theorem head?_ne_of_not_mem (c : Char) (s : GoString) (h : c ∉ s) : s.head? ≠ some c := by
  cases s with
  | nil => simp
  | cons x xs =>
    intro e
    simp only [List.head?_cons, Option.some.injEq] at e
    exact h (by simp [e])

/-- C14 as stated fails in its explanation: a signed token does reach the
integer conversion.  For the tag `v1.2.3` and the describe string
`v1.2.3-+7-gabc` the commit-count token is `+7`; splitting on `-` leaves its
`+`, `strconv.Atoi` converts it to 7 and `parse` succeeds. -/
theorem non_negative_counterexample :
    commitCountToken "v1.2.3".toList "v1.2.3-+7-gabc".toList = "+7".toList ∧
      hasLeadingSign (commitCountToken "v1.2.3".toList "v1.2.3-+7-gabc".toList) = true ∧
      Atoi (commitCountToken "v1.2.3".toList "v1.2.3-+7-gabc".toList) = some 7 ∧
      parse "v1.2.3".toList "v1.2.3-+7-gabc".toList false false
        = Except.ok { major := 1, minor := 2, patch := 3, commitsAhead := 7,
                      preRelease := [], buildMeta := [], hasPrefix := true,
                      dirty := false } := by
  decide

/-- C14, amended: whenever `parse` succeeds, major, minor, patch and
commitsAhead are all non-negative; no token that contains `-` reaches the
integer conversion, because the commit-count token is cut at the first `-` and
the tokens of the version core contain neither `-` nor `+`. -/
theorem non_negative (tag rawDescribe : GoString) (tagErr describeErr : Bool)
    (pv : ParsedVersion) (hp : parse tag rawDescribe tagErr describeErr = Except.ok pv) :
    (0 ≤ pv.major ∧ 0 ≤ pv.minor ∧ 0 ≤ pv.patch ∧ 0 ≤ pv.commitsAhead) ∧
      '-' ∉ commitCountToken tag rawDescribe ∧
      (∀ t ∈ Split (versionCoreText tag) '.', '-' ∉ t ∧ '+' ∉ t) := by
  refine ⟨?_, ?_, ?_⟩
  · cases hf : (tagErr || describeErr) with
    | true =>
      rw [parse_fallback tag rawDescribe tagErr describeErr hf] at hp
      cases hp
      exact ⟨le_refl _, le_refl _, le_refl _, le_refl _⟩
    | false =>
      have h1 : tagErr = false := by cases tagErr <;> simp_all
      have h2 : describeErr = false := by cases describeErr <;> simp_all
      subst h1 h2
      obtain ⟨n, d, hd, ht⟩ := parse_ok_cases tag rawDescribe pv hp
      have hn := parseDescribe_ok_nonneg tag rawDescribe n d hd
      have hf2 := parseTag_fields tag false d n pv ht
      have hc := parseTag_ok_nonneg tag d n pv ht
      exact ⟨hc.1, hc.2.1, hc.2.2, by rw [hf2.1]; exact hn⟩
  · rw [commitCountToken_eq]
    exact not_mem_takeWhile '-' _
  · intro t ht
    exact ⟨fun h => (no_sign_in_core tag).1 (mem_of_mem_Split '.' _ t ht _ h),
      fun h => (no_sign_in_core tag).2 (mem_of_mem_Split '.' _ t ht _ h)⟩

/-- Witness for C14 (amended): tag `v1.2.3`, five commits ahead. -/
theorem non_negative_witness :
    parse "v1.2.3".toList "v1.2.3-5-gabc".toList false false
        = Except.ok { major := 1, minor := 2, patch := 3, commitsAhead := 5,
                      preRelease := [], buildMeta := [], hasPrefix := true,
                      dirty := false } ∧
      (0 : Int) ≤ 1 ∧ (0 : Int) ≤ 2 ∧ (0 : Int) ≤ 3 ∧ (0 : Int) ≤ 5 :=
  ⟨by decide,
    (non_negative "v1.2.3".toList "v1.2.3-5-gabc".toList false false
      { major := 1, minor := 2, patch := 3, commitsAhead := 5, preRelease := [],
        buildMeta := [], hasPrefix := true, dirty := false } (by decide)).1⟩

/-- C15 as stated fails: the prerelease of the tag `v1.0.0--x` is `-x` and the
build metadata of the tag `v1.0.0+-x` is `-x`; both begin with `-`, and `parse`
succeeds on both. -/
theorem delimiter_stripping_counterexample :
    parse "v1.0.0--x".toList "v1.0.0--x-0-gabc".toList false false
        = Except.ok { major := 1, minor := 0, patch := 0, commitsAhead := 0,
                      preRelease := "-x".toList, buildMeta := [], hasPrefix := true,
                      dirty := false } ∧
      "-x".toList.head? = some '-' ∧
      parse "v1.0.0+-x".toList "v1.0.0+-x-0-gabc".toList false false
        = Except.ok { major := 1, minor := 0, patch := 0, commitsAhead := 0,
                      preRelease := [], buildMeta := "-x".toList, hasPrefix := true,
                      dirty := false } := by
  decide

/-- C15, amended: whenever `parse` succeeds, neither the prerelease nor the
build metadata has `+` as its first byte. -/
theorem delimiter_stripping (tag rawDescribe : GoString) (tagErr describeErr : Bool)
    (pv : ParsedVersion) (hp : parse tag rawDescribe tagErr describeErr = Except.ok pv) :
    pv.preRelease.head? ≠ some '+' ∧ pv.buildMeta.head? ≠ some '+' := by
  have key : '+' ∉ pv.preRelease ∧ '+' ∉ pv.buildMeta := by
    cases hf : (tagErr || describeErr) with
    | true =>
      rw [parse_fallback tag rawDescribe tagErr describeErr hf] at hp
      cases hp
      simp
    | false =>
      have h1 : tagErr = false := by cases tagErr <;> simp_all
      have h2 : describeErr = false := by cases describeErr <;> simp_all
      subst h1 h2
      obtain ⟨n, d, _, ht⟩ := parse_ok_cases tag rawDescribe pv hp
      exact parseTag_ok_no_plus tag d n pv ht
  exact ⟨head?_ne_of_not_mem _ _ key.1, head?_ne_of_not_mem _ _ key.2⟩

/-- Witness for C15 (amended): the tag `v1.0.0-rc-1+x`. -/
theorem delimiter_stripping_witness :
    parse "v1.0.0-rc-1+x".toList "v1.0.0-rc-1+x-0-gabc".toList false false
        = Except.ok { major := 1, minor := 0, patch := 0, commitsAhead := 0,
                      preRelease := "rc-1".toList, buildMeta := "x".toList,
                      hasPrefix := true, dirty := false } ∧
      "rc-1".toList.head? ≠ some '+' ∧ "x".toList.head? ≠ some '+' :=
  ⟨by decide,
    (delimiter_stripping "v1.0.0-rc-1+x".toList "v1.0.0-rc-1+x-0-gabc".toList false false
      { major := 1, minor := 0, patch := 0, commitsAhead := 0, preRelease := "rc-1".toList,
        buildMeta := "x".toList, hasPrefix := true, dirty := false } (by decide)).1,
    (delimiter_stripping "v1.0.0-rc-1+x".toList "v1.0.0-rc-1+x-0-gabc".toList false false
      { major := 1, minor := 0, patch := 0, commitsAhead := 0, preRelease := "rc-1".toList,
        buildMeta := "x".toList, hasPrefix := true, dirty := false } (by decide)).2⟩

/-- C16 as stated fails: for the tag `v1.0.0` and the describe string `v1` the
slice `rawDescribe[len(tag)+1:]` is out of range; `parse` neither returns a
version nor fails with one of the two documented errors. -/
theorem parse_total_counterexample :
    parse "v1.0.0".toList "v1".toList false false = Except.error Fatal.panicOutOfRange ∧
      Fatal.panicOutOfRange ≠ InvalidDescribeFormat ∧
      isMalformedVersionCore Fatal.panicOutOfRange = false := by
  decide

/-- C16, amended: for every tag and describe string of a tagged repository
with the describe string at least one byte longer than the tag, `parse` returns
a version or fails with `InvalidDescribeFormat` or with `MalformedVersionCore`;
no slice or index is out of range: token 0 of the describe split exists, and the
`+` and `-` stages return their two parts for every version text. -/
theorem parse_total (tag rawDescribe : GoString)
    (hlen : tag.length + 1 ≤ rawDescribe.length) :
    ((∃ pv, parse tag rawDescribe false false = Except.ok pv) ∨
        parse tag rawDescribe false false = Except.error InvalidDescribeFormat ∨
        (∃ e, parse tag rawDescribe false false = Except.error e ∧
          isMalformedVersionCore e = true)) ∧
      parse tag rawDescribe false false ≠ Except.error Fatal.panicOutOfRange ∧
      (∃ t, (Split (rawDescribe.drop (tag.length + 1)) '-')[0]? = some t) ∧
      (∀ v, ∃ r, splitMeta v = Except.ok r) ∧
      (∀ v, ∃ r, splitPreRelease v = Except.ok r) := by
  have tri : (∃ pv, parse tag rawDescribe false false = Except.ok pv) ∨
      parse tag rawDescribe false false = Except.error InvalidDescribeFormat ∨
      (∃ e, parse tag rawDescribe false false = Except.error e ∧
        isMalformedVersionCore e = true) := by
    have hpd := parseDescribe_eq tag rawDescribe hlen
    split at hpd
    · rw [parse_of_describe _ _ _ _ hpd]
      cases ht : parseTag tag false
          (decide ((Split (rawDescribe.drop (tag.length + 1)) '-').length > 2))
          ((natValue (dropPlusSign (commitCountToken tag rawDescribe)) : Nat) : Int) with
      | error e => exact Or.inr (Or.inr ⟨e, rfl, parseTag_error_malformed _ _ _ _ _ ht⟩)
      | ok pv => exact Or.inl ⟨pv, rfl⟩
    · exact Or.inr (Or.inl (parse_of_describe_error _ _ _ hpd))
  refine ⟨tri, ?_, ⟨_, Split_head '-' _⟩, fun v => ⟨_, splitMeta_eq v⟩,
    fun v => ⟨_, splitPreRelease_eq v⟩⟩
  intro hpanic
  rcases tri with ⟨pv, h⟩ | h | ⟨e, h, he⟩
  · rw [h] at hpanic; cases hpanic
  · rw [h] at hpanic; cases hpanic
  · rw [h] at hpanic
    cases hpanic
    exact absurd he (by decide)

/-- Witness for C16 (amended): the tag `v1.2` with the describe string
`v1.2-0-gabc`, which fails with `MalformedVersionCore`, exit code 4. -/
theorem parse_total_witness :
    "v1.2".toList.length + 1 ≤ "v1.2-0-gabc".toList.length ∧
      parse "v1.2".toList "v1.2-0-gabc".toList false false = Except.error (Fatal.exit 4) ∧
      parse "v1.2".toList "v1.2-0-gabc".toList false false
        ≠ Except.error Fatal.panicOutOfRange :=
  ⟨by decide, by decide,
    (parse_total "v1.2".toList "v1.2-0-gabc".toList (by decide)).2.1⟩

theorem format_plain (M m p N : Nat) (d : Bool) (hp : (p : Int) + 1 ≤ maxInt) :
    format { major := M, minor := m, patch := p, commitsAhead := N, preRelease := [],
             buildMeta := [], hasPrefix := true, dirty := d }
      = 'v' :: ((decimal M ++ '.' :: (decimal m ++ '.' ::
            decimal (if N = 0 ∧ d = false then p else p + 1))) ++
          (if (if N = 0 then [] else "dev.".toList ++ decimal N) = [] then []
           else '-' :: (if N = 0 then [] else "dev.".toList ++ decimal N))) ++
        (if (if d = true then "dirty".toList else []) = [] then []
         else '+' :: (if d = true then "dirty".toList else [])) := by
  by_cases hN : N = 0
  · subst hN
    cases d <;>
      simp [format, bumpedPatch, preReleaseClause, metaClause, Itoa_natCast,
        wrapInt_succ_natCast p hp, Itoa_natCast_succ]
  · have hN0 : (N : Int) ≠ 0 := by omega
    have hN1 : (0 : Int) < N := by omega
    cases d <;>
      simp [format, bumpedPatch, preReleaseClause, metaClause, Itoa_natCast, hN, hN0, hN1,
        wrapInt_succ_natCast p hp, Itoa_natCast_succ]

/-- C13 as stated fails: a version without the `v` prefix is not recovered.
The version 1.2.3 with the prefix unset is formatted as `1.2.3`; parsed as a
tag, it gives major 0. -/
theorem round_trip_counterexample :
    format { major := 1, minor := 2, patch := 3, commitsAhead := 0, preRelease := [],
             buildMeta := [], hasPrefix := false, dirty := false } = "1.2.3".toList ∧
      parse "1.2.3".toList "1.2.3-0-gabc".toList false false
        = Except.ok { major := 0, minor := 0, patch := 0, commitsAhead := 0,
                      preRelease := [], buildMeta := [], hasPrefix := false,
                      dirty := false } := by
  decide

/-- C13, amended: for any parsed version with the prefix set, no prerelease and
no build metadata, whose major, minor, patch and commitsAhead are non-negative
and fit an `int`, patch + 1 included: the formatted string, parsed again as a
tag (with any describe string that parses), yields the same major and minor, and
the same patch when commitsAhead = 0 and the tree is clean, patch + 1 otherwise. -/
theorem round_trip (pv : ParsedVersion) (rawDescribe : GoString) (n : Int) (d : Bool)
    (hpx : pv.hasPrefix = true) (hpre : pv.preRelease = []) (hbm : pv.buildMeta = [])
    (hM0 : 0 ≤ pv.major) (hM1 : pv.major ≤ maxInt) (hm0 : 0 ≤ pv.minor)
    (hm1 : pv.minor ≤ maxInt) (hp0 : 0 ≤ pv.patch) (hp1 : pv.patch + 1 ≤ maxInt)
    (hc0 : 0 ≤ pv.commitsAhead)
    (hd : parseDescribe (format pv) rawDescribe = Except.ok (n, d)) :
    ∃ pv2, parse (format pv) rawDescribe false false = Except.ok pv2 ∧
      pv2.major = pv.major ∧ pv2.minor = pv.minor ∧
      pv2.patch = if pv.commitsAhead = 0 ∧ pv.dirty = false then pv.patch else pv.patch + 1 := by
  obtain ⟨major, minor, patch, ahead, pre, bm, px, dirty⟩ := pv
  simp only at hpx hpre hbm hM0 hM1 hm0 hm1 hp0 hp1 hc0
  subst hpx hpre hbm
  obtain ⟨M, rfl⟩ := Int.eq_ofNat_of_zero_le hM0
  obtain ⟨m, rfl⟩ := Int.eq_ofNat_of_zero_le hm0
  obtain ⟨p, rfl⟩ := Int.eq_ofNat_of_zero_le hp0
  obtain ⟨N, rfl⟩ := Int.eq_ofNat_of_zero_le hc0
  rw [parse_of_describe _ _ _ _ hd]
  have hP : (((if N = 0 ∧ dirty = false then p else p + 1 : Nat) : Nat) : Int) ≤ maxInt := by
    split
    · omega
    · push_cast
      omega
  have hdev : '+' ∉ (if N = 0 then [] else "dev.".toList ++ decimal N) := by
    split
    · simp
    · simp [plus_not_mem_decimal]
  have hdirty : '+' ∉ (if dirty = true then "dirty".toList else []) := by
    cases dirty <;> decide
  have hpt := parseTag_semver M m (if N = 0 ∧ dirty = false then p else p + 1)
    (if N = 0 then [] else "dev.".toList ++ decimal N)
    (if dirty = true then "dirty".toList else []) false d n hM1 hm1 hP hdev hdirty
  rw [← format_plain M m p N dirty hp1] at hpt
  refine ⟨_, hpt, rfl, rfl, ?_⟩
  · simp only
    by_cases h : N = 0 ∧ dirty = false
    · have h2 : ((N : Int) = 0 ∧ dirty = false) := ⟨by omega, h.2⟩
      simp [h]
    · have h2 : ¬ ((N : Int) = 0 ∧ dirty = false) := by
        intro hh
        exact h ⟨by omega, hh.2⟩
      simp only [h, h2, if_false]
      push_cast
      rfl

/-- Witness for C13 (amended): `v1.2.3`, five commits ahead, is formatted as
`v1.2.4-dev.5`, which parses back to 1.2.4. -/
theorem round_trip_witness :
    format { major := 1, minor := 2, patch := 3, commitsAhead := 5, preRelease := [],
             buildMeta := [], hasPrefix := true, dirty := false } = "v1.2.4-dev.5".toList ∧
      ∃ pv2, parse "v1.2.4-dev.5".toList "v1.2.4-dev.5-0-gabc".toList false false
          = Except.ok pv2 ∧
        pv2.major = 1 ∧ pv2.minor = 2 ∧ pv2.patch = 3 + 1 :=
  ⟨by decide,
    round_trip { major := 1, minor := 2, patch := 3, commitsAhead := 5, preRelease := [],
                 buildMeta := [], hasPrefix := true, dirty := false }
      "v1.2.4-dev.5-0-gabc".toList 0 false rfl rfl rfl (by decide) (by decide) (by decide)
      (by decide) (by decide) (by decide) (by decide) (by decide)⟩

theorem parseDescribe_clean_eq (t h : GoString) (N : Nat) (hh : '-' ∉ h) :
    parseDescribe t (t ++ '-' :: (decimal N ++ '-' :: 'g' :: h))
      = match Atoi (decimal N) with
        | none => Except.error (Fatal.exit 3)
        | some n => Except.ok (n, false) := by
  have hgh : '-' ∉ 'g' :: h := by
    intro hm
    rcases List.mem_cons.mp hm with e | e
    · exact absurd e (by decide)
    · exact hh e
  have hlen : ¬ (t ++ '-' :: (decimal N ++ '-' :: 'g' :: h)).length < t.length + 1 := by
    simp only [List.length_append, List.length_cons]
    omega
  unfold parseDescribe
  rw [if_neg hlen, drop_tag, Split_append_sep _ _ _ (minus_not_mem_decimal N),
    Split_of_not_mem _ _ hgh]
  simp only [List.getElem?_cons_zero, List.length_cons, List.length_nil]
  split <;> simp_all

theorem plus_not_mem_Itoa (x : Int) : '+' ∉ Itoa x := by
  unfold Itoa
  split
  · intro h
    rcases List.mem_cons.mp h with e | e
    · exact absurd e (by decide)
    · exact plus_not_mem_decimal _ e
  · exact plus_not_mem_decimal _

theorem format_no_plus (pv : ParsedVersion) (hbm : pv.buildMeta = []) (hd : pv.dirty = false)
    (hpre : '+' ∉ pv.preRelease) : '+' ∉ format pv := by
  have hv : '+' ∉ (if pv.hasPrefix = true then "v".toList else []) := by
    split <;> decide
  have hpc : '+' ∉ preReleaseClause pv := by
    unfold preReleaseClause
    split
    · split
      · simp [plus_not_mem_Itoa]
      · split
        · simp [hpre]
        · split
          · simp [hpre, plus_not_mem_Itoa]
          · simp
    · simp
  have hmc : metaClause pv = [] := by
    simp [metaClause, hbm, hd]
  unfold format
  rw [hmc]
  simp only [List.append_nil, List.mem_append, not_or]
  exact ⟨⟨⟨⟨⟨⟨hv, plus_not_mem_Itoa _⟩, by decide⟩, plus_not_mem_Itoa _⟩, by decide⟩,
    plus_not_mem_Itoa _⟩, hpc⟩

theorem parseTag_buildMeta_nil (tag : GoString) (d : Bool) (n : Int) (pv : ParsedVersion)
    (htag : '+' ∉ tag) (h : parseTag tag false d n = Except.ok pv) : pv.buildMeta = [] := by
  cases hv : HasPrefix tag 'v' with
  | false =>
    rw [parseTag_of_not_v tag d n hv] at h
    cases h
    rfl
  | true =>
    have hdrop : '+' ∉ tag.drop 1 := fun hm => htag (List.mem_of_mem_drop hm)
    rw [parseTag_of_v tag false d n hv] at h
    split at h
    · cases h
    · cases h
      simp only
      rw [dropWhile_of_not_mem '+' _ hdrop]
      rfl

/-- C18: for every tag without `+`, every `N` and every hash without `-`, the
clean describe string `<tag>-<N>-g<hash>` never gives an output that contains
`+`, and the result of the program is the same for every such hash. -/
theorem no_meta_from_hash (tag h h2 : GoString) (N : Nat) (htag : '+' ∉ tag)
    (hh : '-' ∉ h) (hh2 : '-' ∉ h2) :
    (∀ out, gitversion tag (tag ++ "-".toList ++ decimal N ++ "-g".toList ++ h) false false
        = Except.ok out → '+' ∉ out) ∧
      gitversion tag (tag ++ "-".toList ++ decimal N ++ "-g".toList ++ h) false false
        = gitversion tag (tag ++ "-".toList ++ decimal N ++ "-g".toList ++ h2) false false := by
  have e1 : tag ++ "-".toList ++ decimal N ++ "-g".toList ++ h
      = tag ++ '-' :: (decimal N ++ '-' :: 'g' :: h) := by simp
  have e2 : tag ++ "-".toList ++ decimal N ++ "-g".toList ++ h2
      = tag ++ '-' :: (decimal N ++ '-' :: 'g' :: h2) := by simp
  rw [e1, e2]
  constructor
  · intro out hout
    unfold gitversion at hout
    cases hp : parse tag (tag ++ '-' :: (decimal N ++ '-' :: 'g' :: h)) false false with
    | error e =>
      rw [hp] at hout
      cases hout
    | ok pv =>
      rw [hp] at hout
      cases hout
      obtain ⟨n, d, hd, ht⟩ := parse_ok_cases _ _ pv hp
      have hdf : d = false := by
        rw [parseDescribe_clean_eq tag h N hh] at hd
        split at hd
        · cases hd
        · cases hd
          rfl
      subst hdf
      exact format_no_plus pv (parseTag_buildMeta_nil tag false n pv htag ht)
        (parseTag_fields tag false false n pv ht).2 (parseTag_ok_no_plus tag false n pv ht).1
  · have hpd : parseDescribe tag (tag ++ '-' :: (decimal N ++ '-' :: 'g' :: h))
        = parseDescribe tag (tag ++ '-' :: (decimal N ++ '-' :: 'g' :: h2)) := by
      rw [parseDescribe_clean_eq tag h N hh, parseDescribe_clean_eq tag h2 N hh2]
    unfold gitversion parse resolveInputs
    simp only [Bool.or_self, Bool.false_eq_true, if_false]
    rw [hpd]

/-- Witness for C18: the tag `v1.2.3`, five commits ahead, prints
`v1.2.4-dev.5` for the hashes `abc` and `0123def`. -/
theorem no_meta_from_hash_witness :
    '+' ∉ "v1.2.3".toList ∧ '-' ∉ "abc".toList ∧ '-' ∉ "0123def".toList ∧
      gitversion "v1.2.3".toList "v1.2.3-5-gabc".toList false false
        = Except.ok "v1.2.4-dev.5".toList ∧
      '+' ∉ "v1.2.4-dev.5".toList ∧
      gitversion "v1.2.3".toList "v1.2.3-5-gabc".toList false false
        = gitversion "v1.2.3".toList "v1.2.3-5-g0123def".toList false false :=
  ⟨by decide, by decide, by decide, by decide,
    (no_meta_from_hash "v1.2.3".toList "abc".toList "0123def".toList 5 (by decide)
      (by decide) (by decide)).1 "v1.2.4-dev.5".toList (by decide),
    (no_meta_from_hash "v1.2.3".toList "abc".toList "0123def".toList 5 (by decide)
      (by decide) (by decide)).2⟩

theorem minus_not_mem_Itoa (x : Int) (h : 0 ≤ x) : '-' ∉ Itoa x := by
  rw [Itoa_of_nonneg x h]
  exact minus_not_mem_decimal _

theorem plus_not_mem_preReleaseClause (pv : ParsedVersion) (hpre : '+' ∉ pv.preRelease) :
    '+' ∉ preReleaseClause pv := by
  unfold preReleaseClause
  split
  · split
    · simp [plus_not_mem_Itoa]
    · split
      · simp [hpre]
      · split
        · simp [hpre, plus_not_mem_Itoa]
        · simp
  · simp

theorem metaClause_dirty (pv : ParsedVersion) (hd : pv.dirty = true) :
    metaClause pv
      = '+' :: (if pv.buildMeta = [] then "dirty".toList else pv.buildMeta ++ ".dirty".toList) := by
  unfold metaClause
  by_cases hb : pv.buildMeta = []
  · simp [hb, hd]
  · simp [hb, hd]

theorem metaClause_clean (pv : ParsedVersion) (hd : pv.dirty = false) :
    metaClause pv = if pv.buildMeta = [] then [] else '+' :: pv.buildMeta := by
  unfold metaClause
  by_cases hb : pv.buildMeta = []
  · simp [hb, hd]
  · simp [hb, hd]

theorem preReleaseClause_ahead (pv : ParsedVersion) (hc : pv.commitsAhead ≠ 0) :
    preReleaseClause pv
      = '-' :: (if pv.preRelease = [] then "dev.".toList ++ Itoa pv.commitsAhead
                else pv.preRelease ++ '.' :: Itoa pv.commitsAhead) := by
  unfold preReleaseClause
  by_cases hp : pv.preRelease = []
  · simp [hp, hc]
  · simp [hp, hc]

theorem drop_dropWhile_append_sep (sep : Char) (x y : GoString) (h : sep ∉ x) :
    ((x ++ sep :: y).dropWhile (fun ch => ch != sep)).drop 1 = y := by
  rw [dropWhile_append_sep sep x y h]
  rfl

theorem drop_dropWhile_ne_nil (sep : Char) (y : GoString) (hy : y ≠ []) :
    ∀ x : GoString, ((x ++ sep :: y).dropWhile (fun ch => ch != sep)).drop 1 ≠ [] := by
  intro x
  induction x with
  | nil => simpa [List.dropWhile_cons] using hy
  | cons c cs ih =>
    by_cases hc : c = sep
    · simp [List.dropWhile_cons, hc]
    · simpa [List.dropWhile_cons, hc] using ih

theorem append_ne_self (a b : GoString) (hb : b ≠ []) : a ≠ a ++ b := by
  intro h
  have hl := congrArg List.length h
  simp only [List.length_append] at hl
  cases b with
  | nil => exact hb rfl
  | cons c cs =>
    simp only [List.length_cons] at hl
    omega

/-- C19: for every tag that begins with `v` and every describe string on which
the program succeeds, if the parsed version is ahead of the tag or the tree is
dirty, the printed version differs from the tag. -/
theorem non_release_differs (tag rawDescribe : GoString) (pv : ParsedVersion)
    (hv : HasPrefix tag 'v' = true)
    (hp : parse tag rawDescribe false false = Except.ok pv)
    (hnr : 0 < pv.commitsAhead ∨ pv.dirty = true) :
    gitversion tag rawDescribe false false = Except.ok (format pv) ∧ format pv ≠ tag := by
  constructor
  · unfold gitversion
    rw [hp]
  obtain ⟨n, d, hd, ht⟩ := parse_ok_cases tag rawDescribe pv hp
  have hcore := parseTag_ok_nonneg tag d n pv ht
  have hplus := parseTag_ok_no_plus tag d n pv ht
  have hpm : pv.preRelease = preReleaseText tag ∧
      pv.buildMeta = (textAfterFirstPlus tag).takeWhile (fun ch => ch != '+') ∧
      pv.hasPrefix = true := by
    rw [parseTag_of_v tag false d n hv] at ht
    split at ht
    · cases ht
    · cases ht
      exact ⟨rfl, rfl, rfl⟩
  intro heq
  cases tag with
  | nil => simp [HasPrefix] at hv
  | cons t ts =>
    have hfmt : format pv = 'v' :: ((Itoa pv.major ++ '.' :: (Itoa pv.minor ++ '.' ::
        Itoa (bumpedPatch pv)) ++ preReleaseClause pv) ++ metaClause pv) := by
      simp [format, hpm.2.2]
    rw [hfmt] at heq
    have hts : ts = (Itoa pv.major ++ '.' :: (Itoa pv.minor ++ '.' ::
        Itoa (bumpedPatch pv)) ++ preReleaseClause pv) ++ metaClause pv :=
      (List.cons.inj heq).2.symm
    have hnoplus : '+' ∉ Itoa pv.major ++ '.' :: (Itoa pv.minor ++ '.' ::
        Itoa (bumpedPatch pv)) ++ preReleaseClause pv := by
      simp only [List.mem_append, List.mem_cons, not_or]
      exact ⟨⟨plus_not_mem_Itoa _, by decide, plus_not_mem_Itoa _, by decide,
        plus_not_mem_Itoa _⟩, plus_not_mem_preReleaseClause pv hplus.1⟩
    have hbm := hpm.2.1
    have hpre := hpm.1
    simp only [textAfterFirstPlus, List.drop_succ_cons, List.drop_zero] at hbm
    simp only [preReleaseText, versionFront, List.drop_succ_cons, List.drop_zero] at hpre
    cases hdirty : pv.dirty with
    | true =>
      rw [hts, metaClause_dirty pv hdirty, drop_dropWhile_append_sep '+' _ _ hnoplus] at hbm
      by_cases hb : pv.buildMeta = []
      · rw [hb] at hbm
        exact absurd hbm (by decide)
      · rw [if_neg hb] at hbm
        have hx : '+' ∉ pv.buildMeta ++ ".dirty".toList := by
          simp only [List.mem_append, not_or]
          exact ⟨hplus.2, by decide⟩
        rw [takeWhile_of_not_mem '+' _ hx] at hbm
        exact append_ne_self _ _ (by decide) hbm
    | false =>
      have hahead : 0 < pv.commitsAhead := by
        rcases hnr with h | h
        · exact h
        · rw [hdirty] at h
          cases h
      have hc0 : pv.commitsAhead ≠ 0 := by omega
      have hfront : ts.takeWhile (fun ch => ch != '+')
          = Itoa pv.major ++ '.' :: (Itoa pv.minor ++ '.' :: Itoa (bumpedPatch pv)) ++
            preReleaseClause pv := by
        rw [hts, metaClause_clean pv hdirty]
        by_cases hb : pv.buildMeta = []
        · rw [if_pos hb, List.append_nil]
          exact takeWhile_of_not_mem '+' _ hnoplus
        · rw [if_neg hb]
          exact takeWhile_append_sep '+' _ _ hnoplus
      rw [hfront, preReleaseClause_ahead pv hc0] at hpre
      by_cases hp0 : pv.preRelease = []
      · rw [if_pos hp0] at hpre
        rw [hp0] at hpre
        have hy : "dev.".toList ++ Itoa pv.commitsAhead ≠ [] := by
          simp
        exact drop_dropWhile_ne_nil '-' _ hy _ hpre.symm
      · rw [if_neg hp0] at hpre
        have hbump : bumpedPatch pv = pv.patch := by
          simp [bumpedPatch, hp0]
        have hnominus : '-' ∉ Itoa pv.major ++ '.' :: (Itoa pv.minor ++ '.' ::
            Itoa (bumpedPatch pv)) := by
          rw [hbump]
          simp only [List.mem_append, List.mem_cons, not_or]
          exact ⟨minus_not_mem_Itoa _ hcore.1, by decide, minus_not_mem_Itoa _ hcore.2.1,
            by decide, minus_not_mem_Itoa _ hcore.2.2⟩
        rw [drop_dropWhile_append_sep '-' _ _ hnominus] at hpre
        exact append_ne_self _ _ (by simp) hpre

/-- Witness for C19: the tag `v1.2.3` on a dirty tree prints `v1.2.4+dirty`. -/
theorem non_release_differs_witness :
    HasPrefix "v1.2.3".toList 'v' = true ∧
      parse "v1.2.3".toList "v1.2.3-0-gabc-dirty".toList false false
        = Except.ok { major := 1, minor := 2, patch := 3, commitsAhead := 0,
                      preRelease := [], buildMeta := [], hasPrefix := true,
                      dirty := true } ∧
      gitversion "v1.2.3".toList "v1.2.3-0-gabc-dirty".toList false false
        = Except.ok "v1.2.4+dirty".toList ∧
      "v1.2.4+dirty".toList ≠ "v1.2.3".toList :=
  ⟨by decide, by decide,
    (non_release_differs "v1.2.3".toList "v1.2.3-0-gabc-dirty".toList
      { major := 1, minor := 2, patch := 3, commitsAhead := 0, preRelease := [],
        buildMeta := [], hasPrefix := true, dirty := true } (by decide) (by decide)
      (Or.inr rfl)).1,
    (non_release_differs "v1.2.3".toList "v1.2.3-0-gabc-dirty".toList
      { major := 1, minor := 2, patch := 3, commitsAhead := 0, preRelease := [],
        buildMeta := [], hasPrefix := true, dirty := true } (by decide) (by decide)
      (Or.inr rfl)).2⟩

/-! ## Facts about Semantic Versioning strings -/

theorem digitVal_lt_ten (c : Char) (h : isDigit c = true) : digitVal c < 10 := by
  simp only [isDigit, Bool.and_eq_true, decide_eq_true_eq] at h
  unfold digitVal
  omega

theorem digitChar_digitVal (c : Char) (h : isDigit c = true) : digitChar (digitVal c) = c := by
  simp only [isDigit, Bool.and_eq_true, decide_eq_true_eq] at h
  have e : c = Char.ofNat c.toNat := (Char.ofNat_toNat c).symm
  unfold digitVal
  obtain ⟨h1, h2⟩ := h
  generalize c.toNat = k at e h1 h2
  subst e
  interval_cases k <;> rfl

theorem digitVal_pos_of_ne_zero (c : Char) (h : isDigit c = true) (h0 : c ≠ '0') :
    1 ≤ digitVal c := by
  by_contra hlt
  have hz : digitVal c = 0 := by omega
  have e := digitChar_digitVal c h
  rw [hz] at e
  exact h0 e.symm

theorem natValue_append_singleton (xs : GoString) (c : Char) :
    natValue (xs ++ [c]) = natValue xs * 10 + digitVal c := by
  simp [natValue]

theorem natValue_decimal (n : Nat) : natValue (decimal n) = n := by
  have h1 := parseDigits_decimal n
  rw [parseDigits_eq] at h1
  have hd : (decimal n).all isDigit = true := by
    rw [List.all_eq_true]
    exact decimal_digits n
  rw [if_pos hd] at h1
  exact Option.some.inj h1

theorem decimal_natValue_aux (a : GoString) :
    a ≠ [] → a.all isDigit = true → a.head? ≠ some '0' →
      decimal (natValue a) = a ∧ 1 ≤ natValue a := by
  induction a using List.reverseRecOn with
  | nil => intro h; exact absurd rfl h
  | append_singleton xs c ih =>
    intro _ hd hh
    rw [List.all_append] at hd
    simp only [Bool.and_eq_true, List.all_cons, List.all_nil, Bool.and_true] at hd
    obtain ⟨hxs, hc⟩ := hd
    rw [natValue_append_singleton]
    by_cases hx : xs = []
    · subst hx
      have hc0 : c ≠ '0' := by
        intro e
        apply hh
        simp [e]
      have hpos := digitVal_pos_of_ne_zero c hc hc0
      have hlt := digitVal_lt_ten c hc
      constructor
      · simp only [natValue, List.foldl_nil, Nat.zero_mul, Nat.zero_add, List.nil_append]
        rw [decimal_of_lt _ hlt, digitChar_digitVal c hc]
      · simp only [natValue, List.foldl_nil]
        omega
    · have hhx : xs.head? ≠ some '0' := by
        cases xs with
        | nil => exact absurd rfl hx
        | cons y ys => simpa using hh
      obtain ⟨ihd, ihp⟩ := ih hx hxs hhx
      have hlt := digitVal_lt_ten c hc
      constructor
      · rw [decimal_of_ge _ (by omega)]
        have e1 : (natValue xs * 10 + digitVal c) / 10 = natValue xs := by omega
        have e2 : (natValue xs * 10 + digitVal c) % 10 = digitVal c := by omega
        rw [e1, e2, ihd, digitChar_digitVal c hc]
      · omega

theorem decimal_natValue (a : GoString) (h : isNumericId a = true) :
    decimal (natValue a) = a := by
  simp only [isNumericId, Bool.and_eq_true, Bool.or_eq_true, Bool.not_eq_true',
    List.isEmpty_eq_false, beq_iff_eq, bne_iff_ne, ne_eq] at h
  obtain ⟨⟨hne, hd⟩, hz⟩ := h
  by_cases h0 : a.head? = some '0'
  · rcases hz with hl | hl
    · cases a with
      | nil => exact absurd rfl hne
      | cons x xs =>
        simp only [List.head?_cons, Option.some.injEq] at h0
        simp only [List.length_cons, Nat.add_left_eq_self, List.length_eq_zero] at hl
        subst h0 hl
        rfl
    · exact absurd h0 hl
  · exact (decimal_natValue_aux a hne hd h0).1

theorem digitChar_ne_zero (k : Nat) (h1 : 1 ≤ k) : digitChar k ≠ '0' := by
  unfold digitChar
  split <;> first | omega | decide

theorem decimal_head_ne_zero (n : Nat) : 10 ≤ n → (decimal n).head? ≠ some '0' := by
  induction n using Nat.strong_induction_on with
  | _ n ih =>
    intro hn
    rw [decimal_of_ge n hn, List.head?_append_of_ne_nil _ (decimal_ne_nil _)]
    by_cases h : n / 10 < 10
    · rw [decimal_of_lt _ h]
      simp only [List.head?_cons, ne_eq, Option.some.injEq]
      exact digitChar_ne_zero _ (by omega)
    · exact ih (n / 10) (by omega) (by omega)

theorem decimal_all_digits (n : Nat) : (decimal n).all isDigit = true := by
  rw [List.all_eq_true]
  exact decimal_digits n

theorem isNumericId_decimal (n : Nat) : isNumericId (decimal n) = true := by
  have hne := decimal_ne_nil n
  have hd := decimal_all_digits n
  by_cases h : n < 10
  · simp [isNumericId, decimal_of_lt n h, isDigit_digitChar]
  · have hh := decimal_head_ne_zero n (by omega)
    simp [isNumericId, hne, hd, hh]

theorem isIdentChar_of_isDigit (c : Char) (h : isDigit c = true) : isIdentChar c = true := by
  simp [isIdentChar, h]

theorem isPreReleaseId_decimal (n : Nat) : isPreReleaseId (decimal n) = true := by
  have hne := decimal_ne_nil n
  have hid : (decimal n).all isIdentChar = true := by
    rw [List.all_eq_true]
    intro c hc
    exact isIdentChar_of_isDigit c (decimal_digits n c hc)
  simp [isPreReleaseId, hne, hid, isNumericId_decimal]

theorem Split_append (sep : Char) (b : GoString) :
    ∀ a : GoString, Split (a ++ sep :: b) sep = Split a sep ++ Split b sep := by
  intro a
  induction a with
  | nil => simp [Split]
  | cons c cs ih =>
    rw [List.cons_append, Split, ih]
    by_cases hc : c = sep
    · simp [hc, Split]
    · cases hs : Split cs sep with
      | nil => exact absurd hs (Split_ne_nil sep cs)
      | cons t ts =>
        rw [Split, hs]
        simp [hc]

theorem mem_Split_of_mem (sep : Char) :
    ∀ (s : GoString) (x : Char), x ∈ s → x = sep ∨ ∃ t ∈ Split s sep, x ∈ t := by
  intro s
  induction s with
  | nil => intro x hx; simp at hx
  | cons c cs ih =>
    intro x hx
    by_cases hxs : x = sep
    · exact Or.inl hxs
    · right
      cases hs : Split cs sep with
      | nil => exact absurd hs (Split_ne_nil sep cs)
      | cons t ts =>
        by_cases hc : c = sep
        · have hxc : x ∈ cs := by
            rcases List.mem_cons.mp hx with e | e
            · exact absurd (e.trans hc) hxs
            · exact e
          rcases ih x hxc with e | ⟨u, hu, hxu⟩
          · exact absurd e hxs
          · refine ⟨u, ?_, hxu⟩
            rw [Split, if_pos hc]
            exact List.mem_cons_of_mem _ hu
        · rw [Split, if_neg hc, hs]
          rcases List.mem_cons.mp hx with e | e
          · exact ⟨c :: t, by simp, by simp [e]⟩
          · rcases ih x e with e2 | ⟨u, hu, hxu⟩
            · exact absurd e2 hxs
            · rw [hs] at hu
              rcases List.mem_cons.mp hu with e3 | e3
              · subst e3
                exact ⟨c :: u, by simp, List.mem_cons_of_mem _ hxu⟩
              · exact ⟨u, List.mem_cons_of_mem _ e3, hxu⟩

theorem plus_not_mem_of_isBuild (b : GoString) (h : isBuild b = true) : '+' ∉ b := by
  intro hm
  rcases mem_Split_of_mem '.' b '+' hm with e | ⟨t, ht, hxt⟩
  · exact absurd e (by decide)
  · unfold isBuild at h
    rw [List.all_eq_true] at h
    have h1 := h t ht
    simp only [isBuildId, Bool.and_eq_true] at h1
    have h2 := List.all_eq_true.mp h1.2 '+' hxt
    exact absurd h2 (by decide)

theorem plus_not_mem_of_isPreRelease (p : GoString) (h : isPreRelease p = true) : '+' ∉ p := by
  intro hm
  rcases mem_Split_of_mem '.' p '+' hm with e | ⟨t, ht, hxt⟩
  · exact absurd e (by decide)
  · unfold isPreRelease at h
    rw [List.all_eq_true] at h
    have h1 := h t ht
    simp only [isPreReleaseId, Bool.and_eq_true] at h1
    have h2 := List.all_eq_true.mp h1.1.2 '+' hxt
    exact absurd h2 (by decide)

theorem Split_cons_cases (sep : Char) (s : GoString) :
    (sep ∉ s ∧ Split s sep = [s]) ∨
      ∃ a r, sep ∉ a ∧ s = a ++ sep :: r ∧ Split s sep = a :: Split r sep := by
  by_cases h : sep ∈ s
  · right
    refine ⟨s.takeWhile (fun ch => ch != sep), (s.dropWhile (fun ch => ch != sep)).drop 1,
      not_mem_takeWhile sep s, eq_append_of_mem sep s h, ?_⟩
    conv_lhs => rw [eq_append_of_mem sep s h]
    exact Split_append_sep sep _ _ (not_mem_takeWhile sep s)
  · exact Or.inl ⟨h, Split_of_not_mem sep s h⟩

theorem Split_three_join (sep : Char) (s a b c : GoString) (h : Split s sep = [a, b, c]) :
    s = a ++ sep :: (b ++ sep :: c) := by
  rcases Split_cons_cases sep s with ⟨_, h1⟩ | ⟨a1, r1, _, hs1, h1⟩
  · rw [h1] at h
    simp at h
  · rw [h1] at h
    simp only [List.cons.injEq] at h
    obtain ⟨ha, hr1⟩ := h
    rcases Split_cons_cases sep r1 with ⟨_, h2⟩ | ⟨a2, r2, _, hs2, h2⟩
    · rw [h2] at hr1
      simp at hr1
    · rw [h2] at hr1
      simp only [List.cons.injEq] at hr1
      obtain ⟨hb, hr2⟩ := hr1
      rcases Split_cons_cases sep r2 with ⟨_, h3⟩ | ⟨a3, r3, _, _, h3⟩
      · rw [h3] at hr2
        simp only [List.cons.injEq, and_true] at hr2
        rw [hs1, hs2, ha, hb, hr2]
      · rw [h3] at hr2
        simp only [List.cons.injEq] at hr2
        exact absurd hr2.2 (Split_ne_nil sep r3)

theorem Split_core (A B C : Nat) :
    Split (decimal A ++ '.' :: (decimal B ++ '.' :: decimal C)) '.'
      = [decimal A, decimal B, decimal C] := by
  rw [Split_append_sep _ _ _ (dot_not_mem_decimal A),
    Split_append_sep _ _ _ (dot_not_mem_decimal B), Split_of_not_mem _ _ (dot_not_mem_decimal C)]

theorem isSemverCore_split (s : GoString) (h : isSemverCore s = true) :
    ∃ a b c, Split s '.' = [a, b, c] ∧ isNumericId a = true ∧ isNumericId b = true ∧
      isNumericId c = true := by
  unfold isSemverCore at h
  split at h
  · rename_i a b c hs
    simp only [Bool.and_eq_true] at h
    exact ⟨a, b, c, hs, h.1.1, h.1.2, h.2⟩
  · cases h

theorem isSemver_decompose (S : GoString) (h : isSemver S = true) :
    ∃ (A B C : Nat) (pre bm : GoString),
      S = ((decimal A ++ '.' :: (decimal B ++ '.' :: decimal C)) ++
            (if pre = [] then [] else '-' :: pre)) ++ (if bm = [] then [] else '+' :: bm) ∧
        Split (semverCore S) '.' = [decimal A, decimal B, decimal C] ∧
        (pre = [] ∨ isPreRelease pre = true) ∧ (bm = [] ∨ isBuild bm = true) ∧
        '+' ∉ pre ∧ '+' ∉ bm := by
  unfold isSemver at h
  simp only [Bool.and_eq_true, Bool.or_eq_true, Bool.not_eq_eq_eq_not, Bool.not_true] at h
  obtain ⟨⟨hcore, hpre⟩, hbuild⟩ := h
  obtain ⟨a, b, c, hs, ha, hb, hc⟩ := isSemverCore_split _ hcore
  have hjoin := Split_three_join '.' _ a b c hs
  rw [← decimal_natValue a ha, ← decimal_natValue b hb, ← decimal_natValue c hc] at hs hjoin
  -- the text before the first `+`
  have hfront : ∃ pre, S.takeWhile (fun ch => ch != '+')
      = semverCore S ++ (if pre = [] then [] else '-' :: pre) ∧
        (pre = [] ∨ isPreRelease pre = true) := by
    by_cases hm : '-' ∈ S.takeWhile (fun ch => ch != '+')
    · have hp : isPreRelease (((S.takeWhile (fun ch => ch != '+')).dropWhile
          (fun ch => ch != '-')).drop 1) = true := by
        rcases hpre with hx | hx
        · have hcn : (S.takeWhile (fun ch => ch != '+')).contains '-' = true := by
            simpa using hm
          rw [hcn] at hx
          cases hx
        · exact hx
      have hne : ((S.takeWhile (fun ch => ch != '+')).dropWhile
          (fun ch => ch != '-')).drop 1 ≠ [] := by
        intro e
        rw [e] at hp
        exact absurd hp (by decide)
      refine ⟨_, ?_, Or.inr hp⟩
      rw [if_neg hne]
      exact eq_append_of_mem '-' _ hm
    · refine ⟨[], ?_, Or.inl rfl⟩
      simp only [if_true, List.append_nil, semverCore]
      exact (takeWhile_of_not_mem '-' _ hm).symm
  obtain ⟨pre, hfr, hpv⟩ := hfront
  have hwhole : ∃ bm, S = S.takeWhile (fun ch => ch != '+') ++
      (if bm = [] then [] else '+' :: bm) ∧ (bm = [] ∨ isBuild bm = true) := by
    by_cases hm : '+' ∈ S
    · have hb2 : isBuild ((S.dropWhile (fun ch => ch != '+')).drop 1) = true := by
        rcases hbuild with hx | hx
        · have hcn : S.contains '+' = true := by simpa using hm
          rw [hcn] at hx
          cases hx
        · exact hx
      have hne : (S.dropWhile (fun ch => ch != '+')).drop 1 ≠ [] := by
        intro e
        rw [e] at hb2
        exact absurd hb2 (by decide)
      refine ⟨_, ?_, Or.inr hb2⟩
      rw [if_neg hne]
      exact eq_append_of_mem '+' _ hm
    · refine ⟨[], ?_, Or.inl rfl⟩
      simp only [if_true, List.append_nil]
      exact (takeWhile_of_not_mem '+' _ hm).symm
  obtain ⟨bm, hwh, hbv⟩ := hwhole
  refine ⟨natValue a, natValue b, natValue c, pre, bm, ?_, hs, hpv, hbv, ?_, ?_⟩
  · rw [← hjoin, ← hfr]
    exact hwh
  · rcases hpv with e | e
    · rw [e]
      simp
    · exact plus_not_mem_of_isPreRelease pre e
  · rcases hbv with e | e
    · rw [e]
      simp
    · exact plus_not_mem_of_isBuild bm e

theorem isSemver_compose (A B C : Nat) (pre bm : GoString)
    (hpre : pre = [] ∨ isPreRelease pre = true) (hbm : bm = [] ∨ isBuild bm = true) :
    isSemver (((decimal A ++ '.' :: (decimal B ++ '.' :: decimal C)) ++
        (if pre = [] then [] else '-' :: pre)) ++ (if bm = [] then [] else '+' :: bm))
      = true := by
  have hcp := plus_not_mem_core A B C
  have hcm := minus_not_mem_core A B C
  have hsc : isSemverCore (decimal A ++ '.' :: (decimal B ++ '.' :: decimal C)) = true := by
    unfold isSemverCore
    rw [Split_core]
    simp [isNumericId_decimal]
  generalize decimal A ++ '.' :: (decimal B ++ '.' :: decimal C) = core at hcp hcm hsc
  have hprep : '+' ∉ pre := by
    rcases hpre with e | e
    · rw [e]; simp
    · exact plus_not_mem_of_isPreRelease pre e
  have hX : '+' ∉ core ++ (if pre = [] then [] else '-' :: pre) := by
    by_cases hp : pre = []
    · simp [hp, hcp]
    · simp [hp, hcp, hprep]
  have hfront : (((core ++ (if pre = [] then [] else '-' :: pre)) ++
      (if bm = [] then [] else '+' :: bm))).takeWhile (fun ch => ch != '+')
      = core ++ (if pre = [] then [] else '-' :: pre) := by
    by_cases hb : bm = []
    · rw [if_pos hb, List.append_nil]
      exact takeWhile_of_not_mem '+' _ hX
    · rw [if_neg hb]
      exact takeWhile_append_sep '+' _ _ hX
  have hcore : (core ++ (if pre = [] then [] else '-' :: pre)).takeWhile
      (fun ch => ch != '-') = core := by
    by_cases hp : pre = []
    · rw [if_pos hp, List.append_nil]
      exact takeWhile_of_not_mem '-' _ hcm
    · rw [if_neg hp]
      exact takeWhile_append_sep '-' _ _ hcm
  unfold isSemver semverCore
  rw [hfront, hcore, hsc]
  simp only [Bool.true_and, Bool.and_eq_true, Bool.or_eq_true, Bool.not_eq_eq_eq_not,
    Bool.not_true]
  constructor
  · by_cases hp : pre = []
    · left
      rw [if_pos hp, List.append_nil]
      simpa using hcm
    · right
      rw [if_neg hp, drop_dropWhile_append_sep '-' _ _ hcm]
      rcases hpre with e | e
      · exact absurd e hp
      · exact e
  · by_cases hb : bm = []
    · left
      rw [if_pos hb, List.append_nil]
      simpa using hX
    · right
      rw [if_neg hb, drop_dropWhile_append_sep '+' _ _ hX]
      rcases hbm with e | e
      · exact absurd e hb
      · exact e

theorem isPreRelease_dev (N : Nat) : isPreRelease ("dev.".toList ++ decimal N) = true := by
  have e : "dev.".toList ++ decimal N = "dev".toList ++ '.' :: decimal N := by
    simp
  unfold isPreRelease
  rw [e, Split_append_sep '.' _ _ (by decide), Split_of_not_mem '.' _ (dot_not_mem_decimal N)]
  simp only [List.all_cons, List.all_nil, Bool.and_true, Bool.and_eq_true]
  exact ⟨by decide, isPreReleaseId_decimal N⟩

theorem isPreRelease_append_decimal (pre : GoString) (N : Nat)
    (h : isPreRelease pre = true) : isPreRelease (pre ++ '.' :: decimal N) = true := by
  unfold isPreRelease at h ⊢
  rw [Split_append, List.all_append, h, Split_of_not_mem '.' _ (dot_not_mem_decimal N)]
  simp [isPreReleaseId_decimal]

theorem isBuild_append_dirty (bm : GoString) (h : isBuild bm = true) :
    isBuild (bm ++ ".dirty".toList) = true := by
  have e : bm ++ ".dirty".toList = bm ++ '.' :: "dirty".toList := by
    simp
  unfold isBuild at h ⊢
  rw [e, Split_append, List.all_append, h]
  decide

theorem format_semver_shape (A B C N : Nat) (pre bm : GoString) (d : Bool)
    (hC : (C : Int) + 1 ≤ maxInt)
    (hpre : pre = [] ∨ isPreRelease pre = true) (hbm : bm = [] ∨ isBuild bm = true) :
    ∃ (C2 : Nat) (pre2 bm2 : GoString),
      format { major := A, minor := B, patch := C, commitsAhead := N, preRelease := pre,
               buildMeta := bm, hasPrefix := true, dirty := d }
        = 'v' :: (((decimal A ++ '.' :: (decimal B ++ '.' :: decimal C2)) ++
            (if pre2 = [] then [] else '-' :: pre2)) ++
            (if bm2 = [] then [] else '+' :: bm2)) ∧
      (pre2 = [] ∨ isPreRelease pre2 = true) ∧ (bm2 = [] ∨ isBuild bm2 = true) := by
  have hbuild : ∃ bm2 : GoString,
      metaClause { major := A, minor := B, patch := C, commitsAhead := N, preRelease := pre,
                   buildMeta := bm, hasPrefix := true, dirty := d }
        = (if bm2 = [] then [] else '+' :: bm2) ∧ (bm2 = [] ∨ isBuild bm2 = true) := by
    cases d with
    | false =>
      refine ⟨bm, ?_, hbm⟩
      rw [metaClause_clean _ rfl]
    | true =>
      rw [metaClause_dirty _ rfl]
      by_cases hb : bm = []
      · refine ⟨"dirty".toList, ?_, Or.inr (by decide)⟩
        simp [hb]
      · refine ⟨bm ++ ".dirty".toList, ?_, Or.inr (isBuild_append_dirty bm ?_)⟩
        · simp [hb]
        · rcases hbm with e | e
          · exact absurd e hb
          · exact e
  have hprerel : ∃ pre2 : GoString,
      preReleaseClause { major := A, minor := B, patch := C, commitsAhead := N,
                         preRelease := pre, buildMeta := bm, hasPrefix := true, dirty := d }
        = (if pre2 = [] then [] else '-' :: pre2) ∧ (pre2 = [] ∨ isPreRelease pre2 = true) := by
    by_cases hN : N = 0
    · refine ⟨pre, ?_, hpre⟩
      subst hN
      by_cases hp : pre = []
      · simp [preReleaseClause, hp]
      · simp [preReleaseClause, hp]
    · have hN0 : (N : Int) ≠ 0 := by omega
      rw [preReleaseClause_ahead _ hN0]
      by_cases hp : pre = []
      · refine ⟨"dev.".toList ++ decimal N, ?_, Or.inr (isPreRelease_dev N)⟩
        simp [hp, Itoa_natCast]
      · refine ⟨pre ++ '.' :: decimal N, ?_, Or.inr (isPreRelease_append_decimal pre N ?_)⟩
        · simp [hp, Itoa_natCast]
        · rcases hpre with e | e
          · exact absurd e hp
          · exact e
  have hpatch : ∃ C2 : Nat,
      Itoa (bumpedPatch { major := A, minor := B, patch := C, commitsAhead := N,
                          preRelease := pre, buildMeta := bm, hasPrefix := true, dirty := d })
        = decimal C2 := by
    unfold bumpedPatch
    split
    · exact ⟨C + 1, by rw [wrapInt_succ_natCast C hC, Itoa_natCast_succ]⟩
    · exact ⟨C, Itoa_natCast C⟩
  obtain ⟨bm2, hb1, hb2⟩ := hbuild
  obtain ⟨pre2, hp1, hp2⟩ := hprerel
  obtain ⟨C2, hc⟩ := hpatch
  refine ⟨C2, pre2, bm2, ?_, hp2, hb2⟩
  unfold format
  rw [hb1, hp1, hc]
  simp [Itoa_natCast]

/-- C17 as stated fails: `9223372036854775808.0.0` is a valid Semantic
Versioning string without leading zeros whose patch + 1 fits an `int`, but its
major number does not fit, so for the tag `v9223372036854775808.0.0`, five
commits ahead and clean, the program exits with code 5 and prints nothing. -/
theorem semver_output_counterexample :
    isSemver "9223372036854775808.0.0".toList = true ∧
      Split (semverCore "9223372036854775808.0.0".toList) '.'
        = ["9223372036854775808".toList, "0".toList, "0".toList] ∧
      ((natValue "0".toList : Nat) : Int) + 1 ≤ maxInt ∧ '-' ∉ "abc".toList ∧
      gitversion ('v' :: "9223372036854775808.0.0".toList)
          (describeString ('v' :: "9223372036854775808.0.0".toList) 5 "abc".toList false)
          false false
        = Except.error (Fatal.exit 5) := by
  decide

/-- C17, amended: for every tag `v` + S where S is a valid Semantic Versioning
2.0.0 string whose major, minor and patch + 1 fit an `int`, every commit count
N that fits an `int`, every hash without `-` and either dirty state, the
program, given the describe string `<tag>-<N>-g<hash>[-dirty]`, succeeds and
prints `v` followed by a valid Semantic Versioning 2.0.0 string. -/
theorem semver_output (S h : GoString) (N : Nat) (d : Bool) (hS : isSemver S = true)
    (hR : semverCoreInRange S = true) (hN : (N : Int) ≤ maxInt) (hh : '-' ∉ h) :
    ∃ out, gitversion ('v' :: S) (describeString ('v' :: S) N h d) false false
        = Except.ok ('v' :: out) ∧ isSemver out = true := by
  obtain ⟨A, B, C, pre, bm, hSeq, hsplit, hpv, hbv, hpp, hbp⟩ := isSemver_decompose S hS
  unfold semverCoreInRange at hR
  rw [hsplit] at hR
  simp only [natValue_decimal, Bool.and_eq_true, decide_eq_true_eq] at hR
  obtain ⟨⟨hA, hB⟩, hC⟩ := hR
  have hC0 : (C : Int) ≤ maxInt := by omega
  have hT : 'v' :: S = 'v' :: ((decimal A ++ '.' :: (decimal B ++ '.' :: decimal C)) ++
      (if pre = [] then [] else '-' :: pre)) ++ (if bm = [] then [] else '+' :: bm) := by
    rw [hSeq]
    rfl
  rw [gitversion_semver A B C N pre bm h d hA hB hC0 hN hpp hbp hh ('v' :: S) hT]
  obtain ⟨C2, pre2, bm2, hf, hv1, hv2⟩ := format_semver_shape A B C N pre bm d hC hpv hbv
  exact ⟨_, by rw [hf], isSemver_compose A B C2 pre2 bm2 hv1 hv2⟩

/-- Witness for C17 (amended): the tag `v1.0.0-rc.1+build.7`, three commits
ahead on a dirty tree, prints `v1.0.0-rc.1.3+build.7.dirty`. -/
theorem semver_output_witness :
    isSemver "1.0.0-rc.1+build.7".toList = true ∧
      semverCoreInRange "1.0.0-rc.1+build.7".toList = true ∧ ((3 : Nat) : Int) ≤ maxInt ∧
      '-' ∉ "abc".toList ∧
      gitversion "v1.0.0-rc.1+build.7".toList "v1.0.0-rc.1+build.7-3-gabc-dirty".toList
          false false
        = Except.ok "v1.0.0-rc.1.3+build.7.dirty".toList ∧
      isSemver "1.0.0-rc.1.3+build.7.dirty".toList = true ∧
      ∃ out, gitversion ('v' :: "1.0.0-rc.1+build.7".toList)
          (describeString ('v' :: "1.0.0-rc.1+build.7".toList) 3 "abc".toList true)
          false false
        = Except.ok ('v' :: out) ∧ isSemver out = true :=
  ⟨by decide, by decide, by decide, by decide, by decide, by decide,
    semver_output "1.0.0-rc.1+build.7".toList "abc".toList 3 true (by decide) (by decide)
      (by decide) (by decide)⟩

end GitVersion
